import Mathlib

/-!
Verification development for the AST-based JavaScript deobfuscator
(`deobfuscator-v4.js`).  The definitions below are a shallow embedding of
that file: every definition mirrors the source function of the same name.

Modelling conventions:
* JavaScript numbers are modelled as `ℚ`.  All numeric operations exercised
  by the claims (comparisons, `+`, indexing guards) agree with IEEE-754
  doubles on the inputs involved; float rounding, `NaN` and `Infinity`
  results of arithmetic are not representable and the corresponding
  evaluator branches return the "not evaluable" sentinel, which every call
  site of the source treats the same way as a non-finite result.
* `undefined` and the evaluator's "not evaluable" sentinel are both
  `Option.none`, exactly as the source conflates them.
* Thrown JavaScript exceptions are `Except.error ()`.
* JavaScript strings inside the LZ codec are sequences of UTF-16 code
  units (`List Nat`), so that lone surrogates are representable.
-/

set_option maxHeartbeats 2000000
set_option maxRecDepth 4000

-- The concrete claim theorems evaluate pipeline runs by `decide`; the
-- rational operations must therefore unfold during elaboration.
unseal Rat.add Rat.sub Rat.mul Rat.inv Rat.ofScientific

namespace DeobfV4

instance {α β : Type} [DecidableEq α] [DecidableEq β] :
    DecidableEq (Except α β)
  | .error a, .error b =>
    if h : a = b then .isTrue (by rw [h])
    else .isFalse (by intro hh; cases hh; exact h rfl)
  | .ok a, .ok b =>
    if h : a = b then .isTrue (by rw [h])
    else .isFalse (by intro hh; cases hh; exact h rfl)
  | .error _, .ok _ => .isFalse (by intro hh; cases hh)
  | .ok _, .error _ => .isFalse (by intro hh; cases hh)

/-- The domain of literal values handled by the partial evaluator
(`LiteralValue` of the spec): Number, String, Boolean, Null.
`undefined` is not a member: the source represents it by the sentinel. -/
inductive JSVal where
  | num (q : ℚ)
  | str (s : String)
  | boolV (b : Bool)
  | nullV
  deriving DecidableEq, Repr

/-- Result of `nodeToValue`: either `{ok:false}`, or `{ok:true, value}`,
or the `void`-originated `{ok:true, value:undefined, isVoid:true}`. -/
inductive Parsed where
  | notOk
  | okVal (v : JSVal)
  | okVoid
  deriving DecidableEq, Repr

/-- JavaScript truncation toward zero (`ToInt32`'s first step). -/
def ratTrunc (q : ℚ) : ℤ :=
  if 0 ≤ q then ⌊q⌋ else -⌊-q⌋

/-- JavaScript `ToInt32`: truncate, then wrap into `[-2^31, 2^31)`. -/
def toInt32 (q : ℚ) : ℤ :=
  let m := ratTrunc q % 4294967296
  if m < 2147483648 then m else m - 4294967296

/-- JavaScript `ToUint32`: truncate, then wrap into `[0, 2^32)`. -/
def toUint32 (q : ℚ) : ℕ :=
  (ratTrunc q % 4294967296).toNat

/-- Reinterpret a 32-bit unsigned value as a signed int32, as a number. -/
def int32val (n : ℕ) : ℚ :=
  if n < 2147483648 then (n : ℚ) else ((n : ℤ) - 4294967296 : ℤ)

def jsBitAnd (a b : ℚ) : ℚ := int32val (toUint32 a &&& toUint32 b)

def jsBitOr (a b : ℚ) : ℚ := int32val (toUint32 a ||| toUint32 b)

def jsBitXor (a b : ℚ) : ℚ := int32val (toUint32 a ^^^ toUint32 b)

def jsBitNot (a : ℚ) : ℚ := int32val (4294967295 - toUint32 a)

def jsShl (a b : ℚ) : ℚ :=
  int32val ((toUint32 a <<< (toUint32 b % 32)) % 4294967296)

def jsShr (a b : ℚ) : ℚ :=
  ((toInt32 a).ediv (2 ^ (toUint32 b % 32)) : ℤ)

def jsUshr (a b : ℚ) : ℚ :=
  ((toUint32 a >>> (toUint32 b % 32) : ℕ) : ℚ)

/-- JavaScript `%` (remainder; sign follows the dividend). -/
def jsRem (a b : ℚ) : ℚ :=
  a - b * (ratTrunc (a / b) : ℚ)

/-- JavaScript `**` restricted to the ℚ-representable cases; a fractional
exponent (an irrational result in general) yields the sentinel, which every
call site of the source discards just as it discards non-finite numbers. -/
def jsPow (a b : ℚ) : Option ℚ :=
  if b.den = 1 then
    if 0 ≤ b.num then some (a ^ b.num.toNat)
    else if a ≠ 0 then some ((1 / a) ^ (-b.num).toNat)
    else none
  else none

/-- JavaScript truthiness on the evaluator's value domain
(`NaN` does not arise in the ℚ model; `undefined` is handled by callers). -/
def jsTruthy : JSVal → Bool
  | .num q => q ≠ 0
  | .str s => s ≠ ""
  | .boolV b => b
  | .nullV => false

/-- Decimal digits of the fractional part of a rational in `[0,1)`,
up to `fuel` digits (exact for terminating decimals, which covers every
value the pipeline concatenates). -/
def fracDigits : ℕ → ℚ → String
  | 0, _ => ""
  | fuel + 1, q =>
    if q = 0 then ""
    else
      let r := q * 10
      let d := ⌊r⌋.toNat
      toString d ++ fracDigits fuel (r - (d : ℚ))

/-- JavaScript `ToString` on numbers, for the values the model produces. -/
def jsNumToString (q : ℚ) : String :=
  let sg := if q < 0 then "-" else ""
  let aq := |q|
  let ip := (⌊aq⌋).toNat
  let fr := aq - (ip : ℚ)
  if fr = 0 then sg ++ toString ip
  else sg ++ toString ip ++ "." ++ fracDigits 64 fr

mutual
/-- The ECMAScript AST of the source, restricted to the node kinds the
deobfuscator inspects (spec §3).  `hole` stands for an absent optional
child (an array elision, a missing `else`, a missing `return` argument,
a `default:` switch label, a declarator without initializer). -/
inductive Node where
  | numericLiteral (value : ℚ) (raw : Option String)
  | stringLiteral (value : String) (raw : Option String)
  | booleanLiteral (value : Bool)
  | nullLiteral
  | identifier (name : String)
  | unaryExpression (op : String) (argument : Node)
  | binaryExpression (op : String) (left : Node) (right : Node)
  | logicalExpression (op : String) (left : Node) (right : Node)
  | conditionalExpression (test : Node) (consequent : Node) (alternate : Node)
  | memberExpression (object : Node) (property : Node) (computed : Bool)
  | callExpression (callee : Node) (arguments : NodeList)
  | sequenceExpression (expressions : NodeList)
  | assignmentExpression (left : Node) (right : Node)
  | arrayExpression (elements : NodeList)
  | functionExpression (params : NodeList) (body : NodeList)
  | functionDeclaration (id : Node) (params : NodeList) (body : NodeList)
  | variableDeclarator (id : Node) (init : Node)
  | variableDeclaration (declarations : NodeList)
  | expressionStatement (expression : Node)
  | returnStatement (argument : Node)
  | blockStatement (body : NodeList)
  | ifStatement (test : Node) (consequent : Node) (alternate : Node)
  | switchCase (test : Node) (consequent : NodeList)
  | switchStatement (discriminant : Node) (cases : NodeList)
  | emptyStatement
  | hole
  deriving DecidableEq, Repr

/-- A bespoke list of nodes, kept mutual with `Node` so that every
traversal is plain structural recursion. -/
inductive NodeList where
  | nil
  | cons (head : Node) (tail : NodeList)
  deriving DecidableEq, Repr
end

def nlLength : NodeList → ℕ
  | .nil => 0
  | .cons _ t => nlLength t + 1

def nlHead : NodeList → Option Node
  | .nil => none
  | .cons h _ => some h

def nlGet : NodeList → ℕ → Option Node
  | .nil, _ => none
  | .cons h _, 0 => some h
  | .cons _ t, n + 1 => nlGet t n

def nlLast : NodeList → Option Node
  | .nil => none
  | .cons h .nil => some h
  | .cons _ (.cons h t) => nlLast (.cons h t)

def nlAppend : NodeList → NodeList → NodeList
  | .nil, l => l
  | .cons h t, l => .cons h (nlAppend t l)

/-- `nodeToValue` (source lines 181–200): the restricted literal parser
used by constant-array discovery.  It accepts only plain literals,
`!<number>`, `-<number>` and `void <anything>`. -/
def nodeToValue : Node → Parsed
  | .numericLiteral v _ => .okVal (.num v)
  | .stringLiteral v _ => .okVal (.str v)
  | .booleanLiteral v => .okVal (.boolV v)
  | .nullLiteral => .okVal .nullV
  | .unaryExpression "!" (.numericLiteral v _) => .okVal (.boolV (v == 0))
  | .unaryExpression "-" (.numericLiteral v _) => .okVal (.num (-v))
  | .unaryExpression "void" _ => .okVoid
  | _ => .notOk

/-- `valueToNode` (source lines 205–215). -/
def valueToNode : Parsed → Option Node
  | .okVal .nullV => some .nullLiteral
  | .okVoid => some (.unaryExpression "void" (.numericLiteral 0 none))
  | .okVal (.num q) =>
    if q < 0 then some (.unaryExpression "-" (.numericLiteral (-q) none))
    else some (.numericLiteral q none)
  | .okVal (.str s) => some (.stringLiteral s none)
  | .okVal (.boolV b) => some (.booleanLiteral b)
  | .notOk => none

/-- `evaluateNode` (source lines 516–570): the C3 partial evaluator.
Returns `none` for the `undefined` sentinel ("not evaluable").
The source's guard `arg === undefined && !isNumericLiteral(argument)`
collapses to the plain `none` check, because a numeric literal always
evaluates. -/
def evaluateNode : Node → Option JSVal
  | .numericLiteral v _ => some (.num v)
  | .stringLiteral v _ => some (.str v)
  | .booleanLiteral v => some (.boolV v)
  | .nullLiteral => some .nullV
  | .unaryExpression op a =>
    match evaluateNode a with
    | none => none
    | some v =>
      match op with
      | "-" => match v with | .num q => some (.num (-q)) | _ => none
      | "+" => match v with | .num q => some (.num q) | _ => none
      | "!" => some (.boolV (!jsTruthy v))
      | "~" => match v with | .num q => some (.num (jsBitNot (toInt32 q))) | _ => none
      | "void" => none
      | _ => none
  | .binaryExpression op l r =>
    let lv := evaluateNode l
    let rv := evaluateNode r
    if lv = none ∧ rv = none then none
    else if op = "+" then
      match lv, rv with
      | some (.str a), some (.str b) => some (.str (a ++ b))
      | some (.str a), some (.num b) => some (.str (a ++ jsNumToString b))
      | some (.num a), some (.str b) => some (.str (jsNumToString a ++ b))
      | some (.num a), some (.num b) => some (.num (a + b))
      | _, _ => none
    else
      match lv, rv with
      | some (.num a), some (.num b) =>
        match op with
        | "-" => some (.num (a - b))
        | "*" => some (.num (a * b))
        | "/" => if b ≠ 0 then some (.num (a / b)) else none
        | "%" => if b ≠ 0 then some (.num (jsRem a b)) else none
        | "**" => (jsPow a b).map .num
        | "&" => some (.num (jsBitAnd a b))
        | "|" => some (.num (jsBitOr a b))
        | "^" => some (.num (jsBitXor a b))
        | "<<" => some (.num (jsShl a b))
        | ">>" => some (.num (jsShr a b))
        | ">>>" => some (.num (jsUshr a b))
        | _ => none
      | _, _ => none
  | _ => none

/-! ## LZString codec (source lines 27–144)

The compressed input is a sequence of UTF-16 code units (`List Nat`).
`charCodeAt` past the end yields `NaN`, modelled as `Option.none` in the
bit reader's `val`; JavaScript's `NaN & position` is `0`, so an absent
word reads as all-zero bits, exactly like the source. -/

/-- An entry of `_decompress`'s dictionary: the numeric seeds `0,1,2`, a
string, or `undefined` (the bootstrap `bits = 3` case, where the `switch`
falls through and `c` stays undefined). -/
inductive DictEntry where
  | numE (n : ℕ)
  | strE (units : List ℕ)
  | undefE
  deriving DecidableEq, Repr

/-- JavaScript truthiness of `dictionary[c]` (absent index is falsy). -/
def entryTruthy : Option DictEntry → Bool
  | none => false
  | some .undefE => false
  | some (.numE n) => n ≠ 0
  | some (.strE u) => u ≠ []

/-- String coercion of a dictionary entry (only `strE` is reachable where
this is used; the other arms mirror JavaScript coercion for faithfulness). -/
def entryUnits : DictEntry → List ℕ
  | .strE u => u
  | .numE n => (toString n).toList.map Char.toNat
  | .undefE => "undefined".toList.map Char.toNat

/-- `w + s` where `w` may be undefined: JavaScript coerces `undefined`
to the string "undefined". -/
def jsConcatW (w : Option (List ℕ)) (s : List ℕ) : List ℕ :=
  (match w with
   | none => "undefined".toList.map Char.toNat
   | some u => u) ++ s

/-- State of the source's bit reader `data = {val, position, index}`. -/
structure BitState where
  val : Option ℤ
  position : ℕ
  index : ℕ
  deriving DecidableEq, Repr

/-- `getNextValue(index)` for `decompressFromUTF16`:
`charCodeAt(index) - 32`, `NaN` (`none`) past the end. -/
def getNextValue (input : List ℕ) (i : ℕ) : Option ℤ :=
  match input.get? i with
  | some u => some ((u : ℤ) - 32)
  | none => none

/-- Read one bit (source lines 70–74 and every copy of that loop body):
`resb = val & position` (nonnegative since the mask is), shift the mask,
reload the word when the mask hits zero. -/
def readBit (input : List ℕ) (st : BitState) : Bool × BitState :=
  let resb : Bool :=
    match st.val with
    | none => false
    | some v => ((v.emod 4294967296).toNat &&& st.position) ≠ 0
  let p := st.position / 2
  if p = 0 then
    (resb, ⟨getNextValue input st.index, 16384, st.index + 1⟩)
  else
    (resb, ⟨st.val, p, st.index⟩)

/-- Read an `n`-bit value, bits accumulated LSB-first
(`bits |= (resb > 0 ? 1 : 0) * power; power <<= 1`). -/
def readBitsAux (input : List ℕ) : ℕ → ℕ → ℕ → BitState → ℕ × BitState
  | 0, acc, _, st => (acc, st)
  | n + 1, acc, power, st =>
    let (b, st') := readBit input st
    readBitsAux input n (acc + (if b then power else 0)) (power * 2) st'

def readBits (input : List ℕ) (n : ℕ) (st : BitState) : ℕ × BitState :=
  readBitsAux input n 0 1 st

/-- Result of `_decompress`: a thrown TypeError, JavaScript `null`, or a
string (as UTF-16 units). -/
inductive LZResult where
  | thrown
  | nullR
  | strR (units : List ℕ)
  deriving DecidableEq, Repr

/-- State of `_decompress`'s main loop. -/
structure LZState where
  dictionary : List DictEntry
  dictSize : ℕ
  enlargeIn : ℕ
  numBits : ℕ
  w : Option (List ℕ)
  result : List (Option (List ℕ))
  bs : BitState
  deriving DecidableEq, Repr

/-- `result.join('')`: JavaScript `join` renders `undefined` entries as
the empty string. -/
def joinResult (l : List (Option (List ℕ))) : List ℕ :=
  l.foldr (fun o acc => (match o with | none => [] | some u => u) ++ acc) []

/-- `result.push(entry); dictionary[dictSize++] = w + entry.charAt(0);
enlargeIn--; if (enlargeIn == 0) …; w = entry;` -/
def lzPush (st : LZState) (entry : List ℕ) : LZResult ⊕ LZState :=
  let st1 : LZState :=
    { st with
      result := st.result ++ [some entry]
      dictionary := st.dictionary ++ [.strE (jsConcatW st.w (entry.take 1))]
      dictSize := st.dictSize + 1
      enlargeIn := st.enlargeIn - 1
      w := some entry }
  if st1.enlargeIn = 0 then
    .inr { st1 with enlargeIn := 2 ^ st1.numBits, numBits := st1.numBits + 1 }
  else
    .inr st1

/-- The tail of an outer iteration of `_decompress`'s main loop, shared by
the literal branches and the dictionary-reference branch: the
post-`switch` `enlargeIn` check, entry resolution (`dictionary[c]` truthy
/ `c === dictSize` / fail-with-null), the two pushes, and the `w` update.
`decremented` records whether a literal branch already did one
`enlargeIn--`.  Returns either a final result or the next loop state. -/
def lzStepTail (st : LZState) (c : ℕ) (decremented : Bool) :
    LZResult ⊕ LZState :=
  let stA := if decremented then { st with enlargeIn := st.enlargeIn - 1 } else st
  let stB :=
    if stA.enlargeIn = 0 then
      { stA with enlargeIn := 2 ^ stA.numBits, numBits := stA.numBits + 1 }
    else stA
  let lookup := stB.dictionary.get? c
  if entryTruthy lookup then
    lzPush stB (entryUnits (lookup.getD .undefE))
  else if c = stB.dictSize then
    match stB.w with
    | none => .inl .thrown
    | some wu => lzPush stB (wu ++ wu.take 1)
  else
    .inl .nullR

/-- One full outer iteration of the `while (true)` loop
(source lines 101–141): truncation check, read one `numBits`-wide code,
dispatch on it. -/
def lzIter (input : List ℕ) (st : LZState) : LZResult ⊕ LZState :=
  if st.bs.index > input.length then .inl (.strR []) else
  let (code, bs1) := readBits input st.numBits st.bs
  match code with
  | 0 =>
    let (bits, bs2) := readBits input 8 bs1
    lzStepTail
      { st with
        dictionary := st.dictionary ++ [.strE [bits]]
        dictSize := st.dictSize + 1
        bs := bs2 }
      st.dictSize true
  | 1 =>
    let (bits, bs2) := readBits input 16 bs1
    lzStepTail
      { st with
        dictionary := st.dictionary ++ [.strE [bits]]
        dictSize := st.dictSize + 1
        bs := bs2 }
      st.dictSize true
  | 2 => .inl (.strR (joinResult st.result))
  | c + 3 => lzStepTail { st with bs := bs1 } (c + 3) false

/-- The fuelled main loop: iterate `lzIter` until it produces a result.
`none` = fuel exhausted (callers pass fuel strictly dominating the real
loop's step count). -/
def lzLoop (input : List ℕ) : ℕ → LZState → Option LZResult
  | 0, _ => none
  | fuel + 1, st =>
    match lzIter input st with
    | .inl r => some r
    | .inr st' => lzLoop input fuel st'

/-- Bootstrap shared by `lzDecompress`'s preamble branches: set
`dictionary[3] = c`, `w = c`, `result = [c]` (with `c` possibly
undefined) and run the main loop. -/
def lzBootstrap (input : List ℕ) (fuel : ℕ) (c : Option (List ℕ))
    (bs : BitState) : Option LZResult :=
  lzLoop input fuel
    { dictionary := [.numE 0, .numE 1, .numE 2,
        (match c with | none => .undefE | some u => .strE u)]
      dictSize := 4
      enlargeIn := 4
      numBits := 3
      w := c
      result := [c]
      bs := bs }

/-- Dispatch on the decoded 2-bit preamble (the first `switch` of
`_decompress`): 0/1 read the first literal's width, 2 is immediate
end-of-data, and 3 falls through the `switch`, leaving the first
character undefined. -/
def lzPreamble (input : List ℕ) (fuel : ℕ) : ℕ × BitState → Option LZResult
  | (0, bs1) =>
    let (bits, bs2) := readBits input 8 bs1
    lzBootstrap input fuel (some [bits]) bs2
  | (1, bs1) =>
    let (bits, bs2) := readBits input 16 bs1
    lzBootstrap input fuel (some [bits]) bs2
  | (2, _) => some (.strR [])
  | (_, bs1) => lzBootstrap input fuel none bs1

/-- `_decompress` (source lines 59–142) specialised to `resetValue =
16384` (`decompressFromUTF16`).  Reads the 2-bit preamble, bootstraps the
dictionary and enters the main loop. -/
def lzDecompress (input : List ℕ) (fuel : ℕ) : Option LZResult :=
  lzPreamble input fuel (readBits input 2 ⟨getNextValue input 0, 16384, 1⟩)

/-- `decompressFromUTF16` (source lines 43–49): `null`/absent input gives
the empty string, the empty string gives `null`, otherwise `_decompress`
runs on the code units. -/
def decompressFromUTF16 (fuel : ℕ) (input : Option (List ℕ)) : Option LZResult :=
  match input with
  | none => some (.strR [])
  | some us => if us = [] then some .nullR else lzDecompress us fuel

/-! ## String/unit conversions used between the codec and the AST -/

def isHighSurrogate (u : ℕ) : Bool := 55296 ≤ u ∧ u < 56320

def isLowSurrogate (u : ℕ) : Bool := 56320 ≤ u ∧ u < 57344

/-- One UTF-16 unit as a character; lone surrogates (unrepresentable in
Lean's `String`) become U+FFFD.  Only reached on inputs no claim uses. -/
def unitChar (u : ℕ) : Char :=
  if u < 55296 ∨ (57344 ≤ u ∧ u < 1114112) then Char.ofNat u
  else Char.ofNat 65533

def unitsToChars : List ℕ → List Char
  | [] => []
  | [u] => [unitChar u]
  | u :: l :: rest =>
    if isHighSurrogate u ∧ isLowSurrogate l then
      unitChar (65536 + (u - 55296) * 1024 + (l - 56320)) :: unitsToChars rest
    else
      unitChar u :: unitsToChars (l :: rest)

def unitsToStr (us : List ℕ) : String := String.mk (unitsToChars us)

/-- UTF-16 code units of a character (astral characters become a
surrogate pair), then of a string: the view `charCodeAt` exposes. -/
def charUnits (c : Char) : List ℕ :=
  if c.toNat < 65536 then [c.toNat]
  else [55296 + (c.toNat - 65536) / 1024, 56320 + (c.toNat - 65536) % 1024]

def toCodeUnits (s : String) : List ℕ := (s.toList.map charUnits).flatten

/-- `decompressed.split('|')` on code units (`'|'` is 124). -/
def splitUnits : List ℕ → List (List ℕ)
  | [] => [[]]
  | u :: rest =>
    let r := splitUnits rest
    if u = 124 then [] :: r
    else
      match r with
      | [] => [[u]]
      | h :: t => (u :: h) :: t

/-! ## Phase 0 discovery: constant arrays (source lines 221–253) -/

/-- The discovery state's constant-array map, insertion-ordered with
`Map.set` overwrite semantics. -/
abbrev Arrays := List (String × List Parsed)

def mapSet {α : Type} : List (String × α) → String → α → List (String × α)
  | [], k, v => [(k, v)]
  | (k', v') :: t, k, v =>
    if k' = k then (k, v) :: t else (k', v') :: mapSet t k v

def aLookup {α : Type} : List (String × α) → String → Option α
  | [], _ => none
  | (k', v') :: t, k => if k' = k then some v' else aLookup t k

/-- The element loop of `extractConstantArrays`: parse every element with
`nodeToValue`; any failure (`allValid = false`) rejects the whole array.
An array hole is a `null` element, which `nodeToValue` rejects. -/
def parseElems : NodeList → Option (List Parsed)
  | .nil => some []
  | .cons h t =>
    match nodeToValue h with
    | .notOk => none
    | p => (parseElems t).map (fun r => p :: r)

/-- The `VariableDeclarator` visitor body of `extractConstantArrays`:
identifier id, array-expression initializer, at least 10 elements, every
element accepted by `nodeToValue`. -/
def declArrayEntry : Node → Option (String × List Parsed)
  | .variableDeclarator (.identifier name) (.arrayExpression elems) =>
    if nlLength elems < 10 then none
    else
      match parseElems elems with
      | some vs => some (name, vs)
      | none => none
  | _ => none

mutual
/-- Depth-first pre-order collection of constant arrays
(`traverse(ast, {VariableDeclarator(path){…}})`). -/
def ecaN (acc : Arrays) : Node → Arrays
  | .numericLiteral _ _ => acc
  | .stringLiteral _ _ => acc
  | .booleanLiteral _ => acc
  | .nullLiteral => acc
  | .identifier _ => acc
  | .unaryExpression _ a => ecaN acc a
  | .binaryExpression _ l r => ecaN (ecaN acc l) r
  | .logicalExpression _ l r => ecaN (ecaN acc l) r
  | .conditionalExpression t c a => ecaN (ecaN (ecaN acc t) c) a
  | .memberExpression o p _ => ecaN (ecaN acc o) p
  | .callExpression c args => ecaL (ecaN acc c) args
  | .sequenceExpression es => ecaL acc es
  | .assignmentExpression l r => ecaN (ecaN acc l) r
  | .arrayExpression es => ecaL acc es
  | .functionExpression ps b => ecaL (ecaL acc ps) b
  | .functionDeclaration id ps b => ecaL (ecaL (ecaN acc id) ps) b
  | .variableDeclarator id init =>
    let acc1 :=
      match declArrayEntry (.variableDeclarator id init) with
      | some (nm, vs) => mapSet acc nm vs
      | none => acc
    ecaN (ecaN acc1 id) init
  | .variableDeclaration ds => ecaL acc ds
  | .expressionStatement e => ecaN acc e
  | .returnStatement a => ecaN acc a
  | .blockStatement b => ecaL acc b
  | .ifStatement t c a => ecaN (ecaN (ecaN acc t) c) a
  | .switchCase t cs => ecaL (ecaN acc t) cs
  | .switchStatement d cs => ecaL (ecaN acc d) cs
  | .emptyStatement => acc
  | .hole => acc

def ecaL (acc : Arrays) : NodeList → Arrays
  | .nil => acc
  | .cons h t => ecaL (ecaN acc h) t
end

/-- `extractConstantArrays` (source lines 221–253). -/
def extractConstantArrays (prog : NodeList) : Arrays := ecaL [] prog

/-! ## P1: inline constant array access (source lines 417–448) -/

/-- JavaScript array indexing `array[index]` with a number key: defined
only for an integral nonnegative in-range index; any other number reads
property "0.5"-style and yields `undefined` (`none`). -/
def jsArrayGet (values : List Parsed) (q : ℚ) : Option Parsed :=
  if q.den = 1 ∧ 0 ≤ q.num then values.get? q.num.toNat else none

/-- The `MemberExpression` visitor body of `inlineConstantArrayAccess`.
`.ok none` = no rewrite (babel then descends into the children);
`.ok (some r)` = `path.replaceWith(r)`; `.error ()` = the visitor throws:
after the `typeof index !== 'number' || index < 0 || index >= array.length`
guard, `array[index]` can still be `undefined` for a non-integral index,
and reading `item.isVoid` on it raises a TypeError. -/
def icaaTry (arrays : Arrays) : Node → Except Unit (Option Node)
  | .memberExpression (.identifier nm) prop true =>
    match aLookup arrays nm with
    | none => .ok none
    | some values =>
      match evaluateNode prop with
      | some (.num q) =>
        if q < 0 ∨ (values.length : ℚ) ≤ q then .ok none
        else
          match jsArrayGet values q with
          | none => .error ()
          | some item => .ok (valueToNode item)
      | _ => .ok none
  | _ => .ok none

mutual
/-- `inlineConstantArrayAccess`'s traversal: the visitor fires on entering
each member expression; a replaced node is not descended into (its
replacement holds no member expressions), an unreplaced one is. -/
def icaaN (arrays : Arrays) : Node → Except Unit (Node × ℕ)
  | .memberExpression o p comp => do
    match icaaTry arrays (.memberExpression o p comp) with
    | .error e => .error e
    | .ok (some r) => .ok (r, 1)
    | .ok none =>
      let (o', n1) ← icaaN arrays o
      let (p', n2) ← icaaN arrays p
      .ok (.memberExpression o' p' comp, n1 + n2)
  | .numericLiteral v raw => .ok (.numericLiteral v raw, 0)
  | .stringLiteral v raw => .ok (.stringLiteral v raw, 0)
  | .booleanLiteral v => .ok (.booleanLiteral v, 0)
  | .nullLiteral => .ok (.nullLiteral, 0)
  | .identifier nm => .ok (.identifier nm, 0)
  | .unaryExpression op a => do
    let (a', n) ← icaaN arrays a
    .ok (.unaryExpression op a', n)
  | .binaryExpression op l r => do
    let (l', n1) ← icaaN arrays l
    let (r', n2) ← icaaN arrays r
    .ok (.binaryExpression op l' r', n1 + n2)
  | .logicalExpression op l r => do
    let (l', n1) ← icaaN arrays l
    let (r', n2) ← icaaN arrays r
    .ok (.logicalExpression op l' r', n1 + n2)
  | .conditionalExpression t c a => do
    let (t', n1) ← icaaN arrays t
    let (c', n2) ← icaaN arrays c
    let (a', n3) ← icaaN arrays a
    .ok (.conditionalExpression t' c' a', n1 + n2 + n3)
  | .callExpression c args => do
    let (c', n1) ← icaaN arrays c
    let (args', n2) ← icaaL arrays args
    .ok (.callExpression c' args', n1 + n2)
  | .sequenceExpression es => do
    let (es', n) ← icaaL arrays es
    .ok (.sequenceExpression es', n)
  | .assignmentExpression l r => do
    let (l', n1) ← icaaN arrays l
    let (r', n2) ← icaaN arrays r
    .ok (.assignmentExpression l' r', n1 + n2)
  | .arrayExpression es => do
    let (es', n) ← icaaL arrays es
    .ok (.arrayExpression es', n)
  | .functionExpression ps b => do
    let (ps', n1) ← icaaL arrays ps
    let (b', n2) ← icaaL arrays b
    .ok (.functionExpression ps' b', n1 + n2)
  | .functionDeclaration id ps b => do
    let (id', n1) ← icaaN arrays id
    let (ps', n2) ← icaaL arrays ps
    let (b', n3) ← icaaL arrays b
    .ok (.functionDeclaration id' ps' b', n1 + n2 + n3)
  | .variableDeclarator id init => do
    let (id', n1) ← icaaN arrays id
    let (init', n2) ← icaaN arrays init
    .ok (.variableDeclarator id' init', n1 + n2)
  | .variableDeclaration ds => do
    let (ds', n) ← icaaL arrays ds
    .ok (.variableDeclaration ds', n)
  | .expressionStatement e => do
    let (e', n) ← icaaN arrays e
    .ok (.expressionStatement e', n)
  | .returnStatement a => do
    let (a', n) ← icaaN arrays a
    .ok (.returnStatement a', n)
  | .blockStatement b => do
    let (b', n) ← icaaL arrays b
    .ok (.blockStatement b', n)
  | .ifStatement t c a => do
    let (t', n1) ← icaaN arrays t
    let (c', n2) ← icaaN arrays c
    let (a', n3) ← icaaN arrays a
    .ok (.ifStatement t' c' a', n1 + n2 + n3)
  | .switchCase t cs => do
    let (t', n1) ← icaaN arrays t
    let (cs', n2) ← icaaL arrays cs
    .ok (.switchCase t' cs', n1 + n2)
  | .switchStatement d cs => do
    let (d', n1) ← icaaN arrays d
    let (cs', n2) ← icaaL arrays cs
    .ok (.switchStatement d' cs', n1 + n2)
  | .emptyStatement => .ok (.emptyStatement, 0)
  | .hole => .ok (.hole, 0)

def icaaL (arrays : Arrays) : NodeList → Except Unit (NodeList × ℕ)
  | .nil => .ok (.nil, 0)
  | .cons h t => do
    let (h', n1) ← icaaN arrays h
    let (t', n2) ← icaaL arrays t
    .ok (.cons h' t', n1 + n2)
end

/-- `inlineConstantArrayAccess` (source lines 417–448): replaces in-range
literal-indexed accesses to discovered constant arrays, returns the tree
and the change count, or the exception the visitor raised. -/
def inlineConstantArrayAccess (arrays : Arrays) (prog : NodeList) :
    Except Unit (NodeList × ℕ) :=
  icaaL arrays prog

/-! ## A `CallExpression`-visitor engine, shared by P2 and P4

Both `inlineStringDecoder` and `inlineGlobalResolver` are babel
traversals whose only visitor fires on entering a call expression and
either replaces the whole call (the replacement, a leaf, is requeued but
never rewritten further) or leaves it for the traversal to descend. -/

mutual
def callRwN (pre : Node → Option Node) : Node → Node × ℕ
  | .callExpression c args =>
    match pre (.callExpression c args) with
    | some r => (r, 1)
    | none =>
      let (c', n1) := callRwN pre c
      let (args', n2) := callRwL pre args
      (.callExpression c' args', n1 + n2)
  | .numericLiteral v raw => (.numericLiteral v raw, 0)
  | .stringLiteral v raw => (.stringLiteral v raw, 0)
  | .booleanLiteral v => (.booleanLiteral v, 0)
  | .nullLiteral => (.nullLiteral, 0)
  | .identifier nm => (.identifier nm, 0)
  | .unaryExpression op a =>
    let (a', n) := callRwN pre a
    (.unaryExpression op a', n)
  | .binaryExpression op l r =>
    let (l', n1) := callRwN pre l
    let (r', n2) := callRwN pre r
    (.binaryExpression op l' r', n1 + n2)
  | .logicalExpression op l r =>
    let (l', n1) := callRwN pre l
    let (r', n2) := callRwN pre r
    (.logicalExpression op l' r', n1 + n2)
  | .conditionalExpression t c a =>
    let (t', n1) := callRwN pre t
    let (c', n2) := callRwN pre c
    let (a', n3) := callRwN pre a
    (.conditionalExpression t' c' a', n1 + n2 + n3)
  | .memberExpression o p comp =>
    let (o', n1) := callRwN pre o
    let (p', n2) := callRwN pre p
    (.memberExpression o' p' comp, n1 + n2)
  | .sequenceExpression es =>
    let (es', n) := callRwL pre es
    (.sequenceExpression es', n)
  | .assignmentExpression l r =>
    let (l', n1) := callRwN pre l
    let (r', n2) := callRwN pre r
    (.assignmentExpression l' r', n1 + n2)
  | .arrayExpression es =>
    let (es', n) := callRwL pre es
    (.arrayExpression es', n)
  | .functionExpression ps b =>
    let (ps', n1) := callRwL pre ps
    let (b', n2) := callRwL pre b
    (.functionExpression ps' b', n1 + n2)
  | .functionDeclaration id ps b =>
    let (id', n1) := callRwN pre id
    let (ps', n2) := callRwL pre ps
    let (b', n3) := callRwL pre b
    (.functionDeclaration id' ps' b', n1 + n2 + n3)
  | .variableDeclarator id init =>
    let (id', n1) := callRwN pre id
    let (init', n2) := callRwN pre init
    (.variableDeclarator id' init', n1 + n2)
  | .variableDeclaration ds =>
    let (ds', n) := callRwL pre ds
    (.variableDeclaration ds', n)
  | .expressionStatement e =>
    let (e', n) := callRwN pre e
    (.expressionStatement e', n)
  | .returnStatement a =>
    let (a', n) := callRwN pre a
    (.returnStatement a', n)
  | .blockStatement b =>
    let (b', n) := callRwL pre b
    (.blockStatement b', n)
  | .ifStatement t c a =>
    let (t', n1) := callRwN pre t
    let (c', n2) := callRwN pre c
    let (a', n3) := callRwN pre a
    (.ifStatement t' c' a', n1 + n2 + n3)
  | .switchCase t cs =>
    let (t', n1) := callRwN pre t
    let (cs', n2) := callRwL pre cs
    (.switchCase t' cs', n1 + n2)
  | .switchStatement d cs =>
    let (d', n1) := callRwN pre d
    let (cs', n2) := callRwL pre cs
    (.switchStatement d' cs', n1 + n2)
  | .emptyStatement => (.emptyStatement, 0)
  | .hole => (.hole, 0)

def callRwL (pre : Node → Option Node) : NodeList → NodeList × ℕ
  | .nil => (.nil, 0)
  | .cons h t =>
    let (h', n1) := callRwN pre h
    let (t', n2) := callRwL pre t
    (.cons h' t', n1 + n2)
end

/-! ## P2: inline string decoder calls (source lines 454–477) -/

/-- The `CallExpression` visitor body of `inlineStringDecoder`: the callee
must be the decoder identifier with exactly one argument evaluating to a
number; `strings[index]` must actually be a string (a non-integral or
out-of-range index reads `undefined` and is skipped, not thrown). -/
def decoderPre (name : String) (strings : List (List ℕ)) : Node → Option Node
  | .callExpression (.identifier c) args =>
    if c = name ∧ nlLength args = 1 then
      match nlHead args with
      | some a =>
        match evaluateNode a with
        | some (.num q) =>
          if q < 0 ∨ (strings.length : ℚ) ≤ q then none
          else if q.den = 1 ∧ 0 ≤ q.num then
            match strings.get? q.num.toNat with
            | some s => some (.stringLiteral (unitsToStr s) none)
            | none => none
          else none
        | _ => none
      | none => none
    else none
  | _ => none

/-- `inlineStringDecoder` (source lines 454–477). -/
def inlineStringDecoder (name : String) (strings : List (List ℕ))
    (prog : NodeList) : NodeList × ℕ :=
  callRwL (decoderPre name strings) prog

/-! ## P3: constant folding / string merge (source lines 484–511) -/

/-- The `BinaryExpression`-exit visitor body of
`foldConstantsAndMergeStrings`: evaluate; strings, (finite) numbers and
booleans are materialized, `null` leaves `replacement` undefined and the
node stays. -/
def foldPost (n : Node) : Option Node :=
  match n with
  | .binaryExpression _ _ _ =>
    match evaluateNode n with
    | none => none
    | some (.str s) => some (.stringLiteral s none)
    | some (.num q) => valueToNode (.okVal (.num q))
    | some (.boolV b) => some (.booleanLiteral b)
    | some .nullV => none
  | _ => none

mutual
/-- `foldConstantsAndMergeStrings`'s traversal: the visitor fires on
exiting each binary expression, so children fold before their parent. -/
def foldN : Node → Node × ℕ
  | .binaryExpression op l r =>
    let (l', n1) := foldN l
    let (r', n2) := foldN r
    match foldPost (.binaryExpression op l' r') with
    | some rep => (rep, n1 + n2 + 1)
    | none => (.binaryExpression op l' r', n1 + n2)
  | .numericLiteral v raw => (.numericLiteral v raw, 0)
  | .stringLiteral v raw => (.stringLiteral v raw, 0)
  | .booleanLiteral v => (.booleanLiteral v, 0)
  | .nullLiteral => (.nullLiteral, 0)
  | .identifier nm => (.identifier nm, 0)
  | .unaryExpression op a =>
    let (a', n) := foldN a
    (.unaryExpression op a', n)
  | .logicalExpression op l r =>
    let (l', n1) := foldN l
    let (r', n2) := foldN r
    (.logicalExpression op l' r', n1 + n2)
  | .conditionalExpression t c a =>
    let (t', n1) := foldN t
    let (c', n2) := foldN c
    let (a', n3) := foldN a
    (.conditionalExpression t' c' a', n1 + n2 + n3)
  | .memberExpression o p comp =>
    let (o', n1) := foldN o
    let (p', n2) := foldN p
    (.memberExpression o' p' comp, n1 + n2)
  | .callExpression c args =>
    let (c', n1) := foldN c
    let (args', n2) := foldL args
    (.callExpression c' args', n1 + n2)
  | .sequenceExpression es =>
    let (es', n) := foldL es
    (.sequenceExpression es', n)
  | .assignmentExpression l r =>
    let (l', n1) := foldN l
    let (r', n2) := foldN r
    (.assignmentExpression l' r', n1 + n2)
  | .arrayExpression es =>
    let (es', n) := foldL es
    (.arrayExpression es', n)
  | .functionExpression ps b =>
    let (ps', n1) := foldL ps
    let (b', n2) := foldL b
    (.functionExpression ps' b', n1 + n2)
  | .functionDeclaration id ps b =>
    let (id', n1) := foldN id
    let (ps', n2) := foldL ps
    let (b', n3) := foldL b
    (.functionDeclaration id' ps' b', n1 + n2 + n3)
  | .variableDeclarator id init =>
    let (id', n1) := foldN id
    let (init', n2) := foldN init
    (.variableDeclarator id' init', n1 + n2)
  | .variableDeclaration ds =>
    let (ds', n) := foldL ds
    (.variableDeclaration ds', n)
  | .expressionStatement e =>
    let (e', n) := foldN e
    (.expressionStatement e', n)
  | .returnStatement a =>
    let (a', n) := foldN a
    (.returnStatement a', n)
  | .blockStatement b =>
    let (b', n) := foldL b
    (.blockStatement b', n)
  | .ifStatement t c a =>
    let (t', n1) := foldN t
    let (c', n2) := foldN c
    let (a', n3) := foldN a
    (.ifStatement t' c' a', n1 + n2 + n3)
  | .switchCase t cs =>
    let (t', n1) := foldN t
    let (cs', n2) := foldL cs
    (.switchCase t' cs', n1 + n2)
  | .switchStatement d cs =>
    let (d', n1) := foldN d
    let (cs', n2) := foldL cs
    (.switchStatement d' cs', n1 + n2)
  | .emptyStatement => (.emptyStatement, 0)
  | .hole => (.hole, 0)

def foldL : NodeList → NodeList × ℕ
  | .nil => (.nil, 0)
  | .cons h t =>
    let (h', n1) := foldN h
    let (t', n2) := foldL t
    (.cons h' t', n1 + n2)
end

/-- `foldConstantsAndMergeStrings` (source lines 484–511). -/
def foldConstantsAndMergeStrings (prog : NodeList) : NodeList × ℕ :=
  foldL prog

/-! ## Phase 4: global resolver discovery (source lines 589–656) -/

/-- A discovered global resolver: a function name with its
string-key → global-name mapping. -/
structure Resolver where
  funcName : String
  mapping : List (String × String)
  deriving DecidableEq, Repr

/-- `return obj["PropertyName"]`, `return obj.PropertyName`, or
`return Identifier` (source lines 628–639). -/
def propNameOf : Node → Option String
  | .memberExpression _ (.stringLiteral v _) _ => some v
  | .memberExpression _ (.identifier nm) false => some nm
  | .identifier nm => some nm
  | _ => none

/-- Scan a case's consequent for the first return statement carrying an
argument; the source `break`s there whether or not a property name was
extracted.  `some p` = found such a return with extracted name `p`. -/
def caseReturnName : NodeList → Option (Option String)
  | .nil => none
  | .cons (.returnStatement arg) rest =>
    if arg = .hole then caseReturnName rest
    else some (propNameOf arg)
  | .cons _ rest => caseReturnName rest

/-- The per-case loop of `tryExtractResolver`: only string-literal case
labels contribute; `validCases` counts every successful extraction (a
repeated key overwrites the mapping but still counts). -/
def buildMapping : NodeList → List (String × String) → ℕ →
    List (String × String) × ℕ
  | .nil, m, v => (m, v)
  | .cons (.switchCase (.stringLiteral key _) consequent) rest, m, v =>
    (match caseReturnName consequent with
     | some (some p) =>
       if p ≠ "" then buildMapping rest (mapSet m key p) (v + 1)
       else buildMapping rest m v
     | _ => buildMapping rest m v)
  | .cons _ rest, m, v => buildMapping rest m v

/-- `tryExtractResolver` (source lines 608–656): the first switch
statement among the function's top-level statements contributing at least
5 valid mappings promotes the function to a resolver. -/
def tryExtractResolver (funcName : String) : NodeList → Option Resolver
  | .nil => none
  | .cons (.switchStatement _ cases) rest =>
    let (m, v) := buildMapping cases [] 0
    if 5 ≤ v then some ⟨funcName, m⟩ else tryExtractResolver funcName rest
  | .cons _ rest => tryExtractResolver funcName rest

mutual
/-- `extractGlobalResolver`'s traversal (source lines 589–606): function
declarations and named function-expression declarators, in depth-first
order. -/
def egrN (acc : List Resolver) : Node → List Resolver
  | .functionDeclaration id ps b =>
    let acc1 :=
      match id with
      | .identifier nm =>
        (match tryExtractResolver nm b with
         | some r => acc ++ [r]
         | none => acc)
      | _ => acc
    egrL (egrL (egrN acc1 id) ps) b
  | .variableDeclarator id init =>
    let acc1 :=
      match id, init with
      | .identifier nm, .functionExpression _ b =>
        (match tryExtractResolver nm b with
         | some r => acc ++ [r]
         | none => acc)
      | _, _ => acc
    egrN (egrN acc1 id) init
  | .numericLiteral _ _ => acc
  | .stringLiteral _ _ => acc
  | .booleanLiteral _ => acc
  | .nullLiteral => acc
  | .identifier _ => acc
  | .unaryExpression _ a => egrN acc a
  | .binaryExpression _ l r => egrN (egrN acc l) r
  | .logicalExpression _ l r => egrN (egrN acc l) r
  | .conditionalExpression t c a => egrN (egrN (egrN acc t) c) a
  | .memberExpression o p _ => egrN (egrN acc o) p
  | .callExpression c args => egrL (egrN acc c) args
  | .sequenceExpression es => egrL acc es
  | .assignmentExpression l r => egrN (egrN acc l) r
  | .arrayExpression es => egrL acc es
  | .functionExpression ps b => egrL (egrL acc ps) b
  | .variableDeclaration ds => egrL acc ds
  | .expressionStatement e => egrN acc e
  | .returnStatement a => egrN acc a
  | .blockStatement b => egrL acc b
  | .ifStatement t c a => egrN (egrN (egrN acc t) c) a
  | .switchCase t cs => egrL (egrN acc t) cs
  | .switchStatement d cs => egrL (egrN acc d) cs
  | .emptyStatement => acc
  | .hole => acc

def egrL (acc : List Resolver) : NodeList → List Resolver
  | .nil => acc
  | .cons h t => egrL (egrN acc h) t
end

/-- `extractGlobalResolver` (source lines 589–606). -/
def extractGlobalResolver (prog : NodeList) : List Resolver := egrL [] prog

/-- `KNOWN_GLOBALS` (source lines 659–693). -/
def KNOWN_GLOBALS : List String :=
  ["Object", "Array", "String", "Number", "Boolean", "Function", "Symbol",
   "Date", "RegExp", "Error", "TypeError", "RangeError", "SyntaxError",
   "ReferenceError", "Promise", "Map", "Set", "WeakMap", "WeakSet",
   "Proxy", "Reflect", "ArrayBuffer", "DataView", "SharedArrayBuffer",
   "Int8Array", "Uint8Array", "Uint8ClampedArray", "Int16Array",
   "Uint16Array", "Int32Array", "Uint32Array", "Float32Array",
   "Float64Array", "BigInt64Array", "BigUint64Array", "TextEncoder",
   "TextDecoder", "URL", "URLSearchParams", "Blob", "File", "FileReader",
   "FormData", "Request", "Response", "Headers", "AbortController",
   "XMLHttpRequest", "fetch", "WebSocket", "EventSource",
   "BroadcastChannel", "Worker", "SharedWorker", "ServiceWorker",
   "crypto", "Crypto", "SubtleCrypto", "CryptoKey", "performance",
   "Performance", "PerformanceObserver", "navigator", "Navigator",
   "location", "Location", "history", "History", "localStorage",
   "sessionStorage", "Storage", "indexedDB", "IDBFactory", "console",
   "Console", "document", "Document", "window", "Window", "self",
   "globalThis", "global", "setTimeout", "setInterval", "clearTimeout",
   "clearInterval", "requestAnimationFrame", "cancelAnimationFrame",
   "queueMicrotask", "atob", "btoa", "eval", "isNaN", "isFinite",
   "parseInt", "parseFloat", "encodeURI", "decodeURI",
   "encodeURIComponent", "decodeURIComponent", "JSON", "Math", "Intl",
   "Atomics", "NaN", "Infinity", "undefined", "structuredClone",
   "process", "Buffer", "require", "module", "exports", "__dirname",
   "__filename"]

/-- The `CallExpression` visitor body of `inlineGlobalResolver` for one
resolver: a one-argument call of the resolver with a string-literal key
is replaced by a bare identifier only when the mapped name exists and is
in `KNOWN_GLOBALS`. -/
def resolverPre (fname : String) (mapping : List (String × String)) :
    Node → Option Node
  | .callExpression (.identifier c) args =>
    if c = fname ∧ nlLength args = 1 then
      match nlHead args with
      | some (.stringLiteral key _) =>
        (match aLookup mapping key with
         | some g => if KNOWN_GLOBALS.contains g then some (.identifier g) else none
         | none => none)
      | _ => none
    else none
  | _ => none

/-- `inlineGlobalResolver` (source lines 699–724): one full traversal per
resolver, in order, counts summed. -/
def inlineGlobalResolver : List Resolver → NodeList → NodeList × ℕ
  | [], p => (p, 0)
  | r :: rest, p =>
    let (p', c) := callRwL (resolverPre r.funcName r.mapping) p
    let (p'', c') := inlineGlobalResolver rest p'
    (p'', c + c')

/-! ## P5: cosmetic cleanup (source lines 733–860) -/

/-- `isReservedWord` (source lines 850–860). -/
def reservedWords : List String :=
  ["break", "case", "catch", "continue", "debugger", "default", "delete",
   "do", "else", "finally", "for", "function", "if", "in", "instanceof",
   "new", "return", "switch", "this", "throw", "try", "typeof", "var",
   "void", "while", "with", "class", "const", "enum", "export", "extends",
   "import", "super", "implements", "interface", "let", "package",
   "private", "protected", "public", "static", "yield"]

def isReservedWord (s : String) : Bool := reservedWords.contains s

def isIdentStartChar (c : Char) : Bool :=
  (('a' ≤ c ∧ c ≤ 'z') ∨ ('A' ≤ c ∧ c ≤ 'Z') ∨ c = '_' ∨ c = '$')

def isIdentTailChar (c : Char) : Bool :=
  isIdentStartChar c ∨ ('0' ≤ c ∧ c ≤ '9')

/-- The cleanup pass's property-name test
`/^[a-zA-Z_$][a-zA-Z0-9_$]*$/`. -/
def validIdentName (s : String) : Bool :=
  match s.toList with
  | [] => false
  | c :: rest => isIdentStartChar c ∧ rest.all isIdentTailChar

/-- `0x`-prefixed raw metadata on a numeric literal is cleared
(source lines 736–741); other raw forms are kept. -/
def numericRawClear (raw : Option String) : Option String :=
  match raw with
  | some r => if r.startsWith "0x" then none else some r
  | none => none

mutual
/-- `cleanupTransforms` on a single node (source lines 733–848): enter
rules (literal raw metadata, member simplification), then children, then
exit rules (`!<num>`, boolean conditional, boolean logical).
A boolean-test `if` in a statement list is spliced by `cleanupStmts`;
that is the only context in which the source's inputs place one. -/
def cleanupNode : Node → Node
  | .numericLiteral v raw => .numericLiteral v (numericRawClear raw)
  | .stringLiteral v _ => .stringLiteral v none
  | .booleanLiteral v => .booleanLiteral v
  | .nullLiteral => .nullLiteral
  | .identifier nm => .identifier nm
  | .unaryExpression op a =>
    let a' := cleanupNode a
    (match op, a' with
     | "!", .numericLiteral v _ => .booleanLiteral (v == 0)
     | _, _ => .unaryExpression op a')
  | .binaryExpression op l r =>
    .binaryExpression op (cleanupNode l) (cleanupNode r)
  | .logicalExpression op l r =>
    let l' := cleanupNode l
    let r' := cleanupNode r
    (match l' with
     | .booleanLiteral b =>
       if op = "&&" then (if b then r' else .booleanLiteral false)
       else if op = "||" then (if b then .booleanLiteral true else r')
       else .logicalExpression op l' r'
     | _ => .logicalExpression op l' r')
  | .conditionalExpression t c a =>
    let t' := cleanupNode t
    let c' := cleanupNode c
    let a' := cleanupNode a
    (match t' with
     | .booleanLiteral b => if b then c' else a'
     | _ => .conditionalExpression t' c' a')
  -- member expressions: the enter rule (source lines 752-779) decides
  -- the property slot; the children are then visited: the object always, a
  -- surviving string property has its raw metadata cleared by the
  -- `StringLiteral` visitor, a freshly created identifier is a leaf
  | .memberExpression o (.stringLiteral s _) true =>
    if validIdentName s ∧ ¬ isReservedWord s then
      .memberExpression (cleanupNode o) (.identifier s) false
    else
      .memberExpression (cleanupNode o) (.stringLiteral s none) true
  | .memberExpression o (.sequenceExpression es) true =>
    (match nlLast es with
     | some (.stringLiteral s _) =>
       if validIdentName s ∧ ¬ isReservedWord s then
         .memberExpression (cleanupNode o) (.identifier s) false
       else
         .memberExpression (cleanupNode o) (.stringLiteral s none) true
     | _ =>
       .memberExpression (cleanupNode o)
         (.sequenceExpression (cleanupList es)) true)
  | .memberExpression o p comp =>
    .memberExpression (cleanupNode o) (cleanupNode p) comp
  | .callExpression c args =>
    .callExpression (cleanupNode c) (cleanupList args)
  | .sequenceExpression es => .sequenceExpression (cleanupList es)
  | .assignmentExpression l r =>
    .assignmentExpression (cleanupNode l) (cleanupNode r)
  | .arrayExpression es => .arrayExpression (cleanupList es)
  | .functionExpression ps b =>
    .functionExpression (cleanupList ps) (cleanupStmts b)
  | .functionDeclaration id ps b =>
    .functionDeclaration (cleanupNode id) (cleanupList ps) (cleanupStmts b)
  | .variableDeclarator id init =>
    .variableDeclarator (cleanupNode id) (cleanupNode init)
  | .variableDeclaration ds => .variableDeclaration (cleanupList ds)
  | .expressionStatement e => .expressionStatement (cleanupNode e)
  | .returnStatement a => .returnStatement (cleanupNode a)
  | .blockStatement b => .blockStatement (cleanupStmts b)
  | .ifStatement t c a =>
    .ifStatement (cleanupNode t) (cleanupNode c) (cleanupNode a)
  | .switchCase t cs => .switchCase (cleanupNode t) (cleanupStmts cs)
  | .switchStatement d cs =>
    .switchStatement (cleanupNode d) (cleanupList cs)
  | .emptyStatement => .emptyStatement
  | .hole => .hole

/-- Cleanup of a non-statement node list (arguments, elements, params,
declarators, switch cases). -/
def cleanupList : NodeList → NodeList
  | .nil => .nil
  | .cons h t => .cons (cleanupNode h) (cleanupList t)

/-- Cleanup of a statement list: empty statements are removed
(`EmptyStatement(path){path.remove()}`), and the `IfStatement` exit
visitor's boolean-test handling splices the taken block
(`replaceWithMultiple`) or removes the statement. -/
def cleanupStmts : NodeList → NodeList
  | .nil => .nil
  | .cons s rest =>
    match s with
    | .emptyStatement => cleanupStmts rest
    | _ =>
      match cleanupNode s with
      | .ifStatement (.booleanLiteral true) (.blockStatement b) _ =>
        nlAppend b (cleanupStmts rest)
      | .ifStatement (.booleanLiteral true) c _ =>
        .cons c (cleanupStmts rest)
      | .ifStatement (.booleanLiteral false) _ .hole => cleanupStmts rest
      | .ifStatement (.booleanLiteral false) _ (.blockStatement b) =>
        nlAppend b (cleanupStmts rest)
      | .ifStatement (.booleanLiteral false) _ a =>
        .cons a (cleanupStmts rest)
      | .emptyStatement => cleanupStmts rest
      | s' => .cons s' (cleanupStmts rest)
end

/-- `cleanupTransforms` (source lines 733–848) on a program. -/
def cleanupTransforms (prog : NodeList) : NodeList := cleanupStmts prog

/-! ## Raw-source scanning (source lines 356–368, 389–407, 901–907)

The raw source is a `List Char`.  The three regular expressions the
source uses are deterministic (every quantified piece is followed by a
character its own class excludes), so each is realized as a maximal-munch
matcher applied at every position left to right — exactly the semantics
of `String.prototype.match` without the global flag. -/

def listStartsWith : List Char → List Char → Bool
  | _, [] => true
  | [], _ :: _ => false
  | c :: cs, p :: ps => c = p && listStartsWith cs ps

def firstIndexFrom (pat : List Char) : List Char → ℕ → Option ℕ
  | [], _ => none
  | c :: t, i =>
    if listStartsWith (c :: t) pat then some i
    else firstIndexFrom pat t (i + 1)

/-- `code.indexOf(pat)` for nonempty `pat` (`none` = `-1`). -/
def firstIndexOf (hay pat : List Char) : Option ℕ := firstIndexFrom pat hay 0

def lastIndexAux (pat : List Char) : List Char → ℕ → Option ℕ → Option ℕ
  | [], _, best => best
  | c :: t, i, best =>
    lastIndexAux pat t (i + 1)
      (if listStartsWith (c :: t) pat then some i else best)

/-- `code.lastIndexOf(pat)` for nonempty `pat` (`none` = `-1`). -/
def lastIndexOf (hay pat : List Char) : Option ℕ := lastIndexAux pat hay 0 none

def isWordChar (c : Char) : Bool :=
  ('a' ≤ c ∧ c ≤ 'z') ∨ ('A' ≤ c ∧ c ≤ 'Z') ∨ ('0' ≤ c ∧ c ≤ '9') ∨ c = '_'

def isWSChar (c : Char) : Bool :=
  c = ' ' ∨ c = '\t' ∨ c = '\n' ∨ c = '\r'

def skipWS : List Char → List Char
  | [] => []
  | c :: t => if isWSChar c then skipWS t else c :: t

/-- `\s+`: at least one whitespace character. -/
def expectWS1 : List Char → Option (List Char)
  | [] => none
  | c :: t => if isWSChar c then some (skipWS t) else none

def takeWordChars : List Char → List Char × List Char
  | [] => ([], [])
  | c :: t =>
    if isWordChar c then
      let (a, b) := takeWordChars t
      (c :: a, b)
    else ([], c :: t)

/-- `[a-zA-Z_$]\w*` (maximal munch). -/
def takeIdent : List Char → Option (List Char × List Char)
  | [] => none
  | c :: t =>
    if isIdentStartChar c then
      let (a, b) := takeWordChars t
      some (c :: a, b)
    else none

/-- `\w+` (maximal munch). -/
def takeWord : List Char → Option (List Char × List Char)
  | [] => none
  | c :: t =>
    if isWordChar c then
      let (a, b) := takeWordChars t
      some (c :: a, b)
    else none

def expectChar (c : Char) : List Char → Option (List Char)
  | [] => none
  | c' :: t => if c' = c then some t else none

def expectLit : List Char → List Char → Option (List Char)
  | [], rest => some rest
  | _ :: _, [] => none
  | p :: ps, c :: t => if c = p then expectLit ps t else none

/-- `[^)]+` (maximal munch; must be nonempty). -/
def takeNotRPar : List Char → List Char × List Char
  | [] => ([], [])
  | c :: t =>
    if c = ')' then ([], c :: t)
    else
      let (a, b) := takeNotRPar t
      (c :: a, b)

/-- The `findDecoderFuncName` pattern (source line 400):
`([a-zA-Z_$]\w*)\s*=\s*function\s*\(\s*([a-zA-Z_$]\w*)\s*\)\s*\x7b\s*return\s+([a-zA-Z_$]\w*)\s*\[\s*\2\s*\]\s*;?\s*\x7d`
tried at one start position; returns capture group 1. -/
def regexAAt (cs : List Char) : Option String := do
  let (name, r1) ← takeIdent cs
  let r2 ← expectChar '=' (skipWS r1)
  let r3 ← expectLit "function".toList (skipWS r2)
  let r4 ← expectChar '(' (skipWS r3)
  let (param, r5) ← takeIdent (skipWS r4)
  let r6 ← expectChar ')' (skipWS r5)
  let r7 ← expectChar '\x7b' (skipWS r6)
  let r8 ← expectLit "return".toList (skipWS r7)
  let r9 ← expectWS1 r8
  let (_, r10) ← takeIdent r9
  let r11 ← expectChar '[' (skipWS r10)
  let r12 ← expectLit param (skipWS r11)
  let r13 ← expectChar ']' (skipWS r12)
  let r14 := skipWS r13
  let r15 := (match expectChar ';' r14 with | some r => r | none => r14)
  let _ ← expectChar '\x7d' (skipWS r15)
  pure (String.mk name)

def regexAScan : List Char → Option String
  | [] => none
  | c :: t =>
    match regexAAt (c :: t) with
    | some nm => some nm
    | none => regexAScan t

/-- `findDecoderFuncName` (source lines 389–407): search from the LAST
occurrence of `decompressFromUTF16`, in a window of at most 1000
characters. -/
def findDecoderFuncName (code : List Char) : Option String :=
  match lastIndexOf code "decompressFromUTF16".toList with
  | none => none
  | some i => regexAScan ((code.drop i).take 1000)

/-- The in-`extractLZStringDecoder` fallback pattern (source line 362):
`([a-zA-Z_$]\w*)\s*=\s*function\s*\([^)]+\)\s*\x7b\s*return\s+[a-zA-Z_$]\w*\s*\[\s*[a-zA-Z_$]\w*\s*\]`
tried at one start position. -/
def regexBAt (cs : List Char) : Option String := do
  let (name, r1) ← takeIdent cs
  let r2 ← expectChar '=' (skipWS r1)
  let r3 ← expectLit "function".toList (skipWS r2)
  let r4 ← expectChar '(' (skipWS r3)
  let (inner, r5) := takeNotRPar r4
  if inner = [] then none else do
  let r6 ← expectChar ')' r5
  let r7 ← expectChar '\x7b' (skipWS r6)
  let r8 ← expectLit "return".toList (skipWS r7)
  let r9 ← expectWS1 r8
  let (_, r10) ← takeIdent r9
  let r11 ← expectChar '[' (skipWS r10)
  let (_, r12) ← takeIdent (skipWS r11)
  let _ ← expectChar ']' (skipWS r12)
  pure (String.mk name)

def regexBScan : List Char → Option String
  | [] => none
  | c :: t =>
    match regexBAt (c :: t) with
    | some nm => some nm
    | none => regexBScan t

/-- The textual fallback inside `extractLZStringDecoder`
(source lines 356–368): search from the FIRST occurrence of
`decompressFromUTF16`, in a window of at most 500 characters. -/
def lzRegexFallback (code : List Char) : Option String :=
  match firstIndexOf code "decompressFromUTF16".toList with
  | none => none
  | some i => regexBScan ((code.drop i).take 500)

/-- The generic pattern of the last-resort Phase-0 branch (source line
902): `(\w+)\.decompressFromUTF16\s*\(\s*(\w+)\s*\)`; returns capture
group 2 (the compressed-string variable name). -/
def regexCAt (cs : List Char) : Option String := do
  let (_, r1) ← takeWord cs
  let r2 ← expectChar '.' r1
  let r3 ← expectLit "decompressFromUTF16".toList r2
  let r4 ← expectChar '(' (skipWS r3)
  let (v, r5) ← takeWord (skipWS r4)
  let _ ← expectChar ')' (skipWS r5)
  pure (String.mk v)

def regexCScan : List Char → Option String
  | [] => none
  | c :: t =>
    match regexCAt (c :: t) with
    | some nm => some nm
    | none => regexCScan t

/-! ## Phase-0 string-table discovery (source lines 268–384) -/

/-- The result of `extractLZStringDecoder`: the decoder's name (when
identified) and the decompressed string table. -/
structure LZExtract where
  decoderFuncName : Option String
  strings : List (List ℕ)
  deriving DecidableEq, Repr

/-- `path.scope.getBinding(name)` for the compressed-string argument,
simplified to the first declarator (depth-first) whose id is the
identifier and whose initializer is a string literal.  The source
resolves bindings through babel's scope chain; shadowing distinctions do
not arise in its inputs. -/
def fsbStep (nm : String) (acc : Option String) (n : Node) : Option String :=
  match acc with
  | some s => some s
  | none =>
    match n with
    | .variableDeclarator (.identifier nm') (.stringLiteral s _) =>
      if nm' = nm then some s else none
    | _ => none

mutual
def fsbN (nm : String) (acc : Option String) : Node → Option String
  | .numericLiteral _ _ => acc
  | .stringLiteral _ _ => acc
  | .booleanLiteral _ => acc
  | .nullLiteral => acc
  | .identifier _ => acc
  | .unaryExpression _ a => fsbN nm acc a
  | .binaryExpression _ l r => fsbN nm (fsbN nm acc l) r
  | .logicalExpression _ l r => fsbN nm (fsbN nm acc l) r
  | .conditionalExpression t c a => fsbN nm (fsbN nm (fsbN nm acc t) c) a
  | .memberExpression o p _ => fsbN nm (fsbN nm acc o) p
  | .callExpression c args => fsbL nm (fsbN nm acc c) args
  | .sequenceExpression es => fsbL nm acc es
  | .assignmentExpression l r => fsbN nm (fsbN nm acc l) r
  | .arrayExpression es => fsbL nm acc es
  | .functionExpression ps b => fsbL nm (fsbL nm acc ps) b
  | .functionDeclaration id ps b => fsbL nm (fsbL nm (fsbN nm acc id) ps) b
  | .variableDeclarator id init =>
    let acc1 := fsbStep nm acc (.variableDeclarator id init)
    fsbN nm (fsbN nm acc1 id) init
  | .variableDeclaration ds => fsbL nm acc ds
  | .expressionStatement e => fsbN nm acc e
  | .returnStatement a => fsbN nm acc a
  | .blockStatement b => fsbL nm acc b
  | .ifStatement t c a => fsbN nm (fsbN nm (fsbN nm acc t) c) a
  | .switchCase t cs => fsbL nm (fsbN nm acc t) cs
  | .switchStatement d cs => fsbL nm (fsbN nm acc d) cs
  | .emptyStatement => acc
  | .hole => acc

def fsbL (nm : String) (acc : Option String) : NodeList → Option String
  | .nil => acc
  | .cons h t => fsbL nm (fsbN nm acc h) t
end

def findStringBinding (prog : NodeList) (nm : String) : Option String :=
  fsbL nm none prog

/-- Does a parameter list contain the identifier? -/
def nlHasIdent : NodeList → String → Bool
  | .nil, _ => false
  | .cons (.identifier nm') t, nm => nm' = nm ∨ nlHasIdent t nm
  | .cons _ t, nm => nlHasIdent t nm

mutual
/-- Does the function body declare `nm` in the function's own scope
(declarators anywhere up to, but not through, nested functions; nested
function declarations bind their name here)? -/
def declaresN (nm : String) : Node → Bool
  | .variableDeclarator (.identifier nm') init =>
    nm' = nm ∨ declaresN nm init
  | .variableDeclarator id init => declaresN nm id ∨ declaresN nm init
  | .functionDeclaration (.identifier nm') _ _ => nm' = nm
  | .functionDeclaration _ _ _ => false
  | .functionExpression _ _ => false
  | .numericLiteral _ _ => false
  | .stringLiteral _ _ => false
  | .booleanLiteral _ => false
  | .nullLiteral => false
  | .identifier _ => false
  | .unaryExpression _ a => declaresN nm a
  | .binaryExpression _ l r => declaresN nm l ∨ declaresN nm r
  | .logicalExpression _ l r => declaresN nm l ∨ declaresN nm r
  | .conditionalExpression t c a =>
    declaresN nm t ∨ declaresN nm c ∨ declaresN nm a
  | .memberExpression o p _ => declaresN nm o ∨ declaresN nm p
  | .callExpression c args => declaresN nm c ∨ declaresL nm args
  | .sequenceExpression es => declaresL nm es
  | .assignmentExpression l r => declaresN nm l ∨ declaresN nm r
  | .arrayExpression es => declaresL nm es
  | .variableDeclaration ds => declaresL nm ds
  | .expressionStatement e => declaresN nm e
  | .returnStatement a => declaresN nm a
  | .blockStatement b => declaresL nm b
  | .ifStatement t c a => declaresN nm t ∨ declaresN nm c ∨ declaresN nm a
  | .switchCase t cs => declaresN nm t ∨ declaresL nm cs
  | .switchStatement d cs => declaresN nm d ∨ declaresL nm cs
  | .emptyStatement => false
  | .hole => false

def declaresL (nm : String) : NodeList → Bool
  | .nil => false
  | .cons h t => declaresN nm h ∨ declaresL nm t
end

/-- The binding check of the AST strategy (source lines 341–344):
`NAME` must resolve OUTSIDE the enclosing IIFE's scope, i.e. not be one
of its parameters and not be declared inside it. -/
def locallyBound (fparams fbody : NodeList) (nm : String) : Bool :=
  nlHasIdent fparams nm ∨ declaresL nm fbody

/-- The AST strategy's scan of the enclosing function's top-level
statements (source lines 330–354):
`NAME = function (param) { return ARRAY[param]; }` where `NAME` is not
local to the enclosing function. -/
def scanDecoderAssign (fparams fbody : NodeList) : NodeList → Option String
  | .nil => none
  | .cons (.expressionStatement (.assignmentExpression (.identifier nm)
      (.functionExpression _ (.cons (.returnStatement
        (.memberExpression _ _ true)) .nil)))) rest =>
    if ¬ locallyBound fparams fbody nm then some nm
    else scanDecoderAssign fparams fbody rest
  | .cons _ rest => scanDecoderAssign fparams fbody rest

/-- The body of `extractLZStringDecoder`'s `CallExpression` visitor for
one candidate call.  `none` = the visitor `return`ed and the traversal
continues; `some r` = `path.stop()` with result `r`. -/
def lzAttempt (code : List Char) (prog : NodeList)
    (encl : Option (NodeList × NodeList)) (callee : Node)
    (args : NodeList) : Option LZExtract :=
  match callee with
  | .memberExpression _ (.identifier "decompressFromUTF16") _ =>
    let compressed : Option String :=
      match nlHead args with
      | some (.identifier nm) => findStringBinding prog nm
      | some (.stringLiteral s _) => some s
      | _ => none
    (match compressed with
     | none => none
     | some cs =>
       if cs = "" then none   -- `if (!compressedStr) return`
       else
         let units := toCodeUnits cs
         match decompressFromUTF16 (20 * units.length + 100) (some units) with
         | some (.strR l) =>
           if l = [] then none   -- `if (!decompressed) return`
           else
             (match encl with
              | none => none     -- `if (!parentFunc) return`
              | some (ps, body) =>
                let strings := splitUnits l
                match scanDecoderAssign ps body body with
                | some nm => some ⟨some nm, strings⟩
                | none => some ⟨lzRegexFallback code, strings⟩)
         | _ => none             -- null, thrown-and-caught, or fuel out
     )
  | _ => none

mutual
/-- `extractLZStringDecoder`'s traversal, carrying the innermost
enclosing function (`path.getFunctionParent()`): first successful
candidate stops the walk. -/
def lzSearchN (code : List Char) (prog : NodeList)
    (encl : Option (NodeList × NodeList)) : Node → Option LZExtract
  | .callExpression c args =>
    (match lzAttempt code prog encl c args with
     | some r => some r
     | none =>
       match lzSearchN code prog encl c with
       | some r => some r
       | none => lzSearchL code prog encl args)
  | .functionExpression ps b =>
    (match lzSearchL code prog (some (ps, b)) ps with
     | some r => some r
     | none => lzSearchL code prog (some (ps, b)) b)
  | .functionDeclaration id ps b =>
    (match lzSearchN code prog (some (ps, b)) id with
     | some r => some r
     | none =>
       match lzSearchL code prog (some (ps, b)) ps with
       | some r => some r
       | none => lzSearchL code prog (some (ps, b)) b)
  | .numericLiteral _ _ => none
  | .stringLiteral _ _ => none
  | .booleanLiteral _ => none
  | .nullLiteral => none
  | .identifier _ => none
  | .unaryExpression _ a => lzSearchN code prog encl a
  | .binaryExpression _ l r =>
    (match lzSearchN code prog encl l with
     | some r' => some r'
     | none => lzSearchN code prog encl r)
  | .logicalExpression _ l r =>
    (match lzSearchN code prog encl l with
     | some r' => some r'
     | none => lzSearchN code prog encl r)
  | .conditionalExpression t c a =>
    (match lzSearchN code prog encl t with
     | some r => some r
     | none =>
       match lzSearchN code prog encl c with
       | some r => some r
       | none => lzSearchN code prog encl a)
  | .memberExpression o p _ =>
    (match lzSearchN code prog encl o with
     | some r => some r
     | none => lzSearchN code prog encl p)
  | .sequenceExpression es => lzSearchL code prog encl es
  | .assignmentExpression l r =>
    (match lzSearchN code prog encl l with
     | some r' => some r'
     | none => lzSearchN code prog encl r)
  | .arrayExpression es => lzSearchL code prog encl es
  | .variableDeclarator id init =>
    (match lzSearchN code prog encl id with
     | some r => some r
     | none => lzSearchN code prog encl init)
  | .variableDeclaration ds => lzSearchL code prog encl ds
  | .expressionStatement e => lzSearchN code prog encl e
  | .returnStatement a => lzSearchN code prog encl a
  | .blockStatement b => lzSearchL code prog encl b
  | .ifStatement t c a =>
    (match lzSearchN code prog encl t with
     | some r => some r
     | none =>
       match lzSearchN code prog encl c with
       | some r => some r
       | none => lzSearchN code prog encl a)
  | .switchCase t cs =>
    (match lzSearchN code prog encl t with
     | some r => some r
     | none => lzSearchL code prog encl cs)
  | .switchStatement d cs =>
    (match lzSearchN code prog encl d with
     | some r => some r
     | none => lzSearchL code prog encl cs)
  | .emptyStatement => none
  | .hole => none

def lzSearchL (code : List Char) (prog : NodeList)
    (encl : Option (NodeList × NodeList)) : NodeList → Option LZExtract
  | .nil => none
  | .cons h t =>
    match lzSearchN code prog encl h with
    | some r => some r
    | none => lzSearchL code prog encl t
end

/-- `extractLZStringDecoder` (source lines 268–384). -/
def extractLZStringDecoder (code : List Char) (prog : NodeList) :
    Option LZExtract :=
  lzSearchL code prog none prog

mutual
/-- The last-resort traversal of the generic Phase-0 branch
(source lines 910–924): every declarator `varName = "…"` is tried; a
later successful decompression overwrites an earlier one. -/
def gfbN (nm : String) (acc : Option (List ℕ)) : Node → Option (List ℕ)
  | .variableDeclarator (.identifier nm') (.stringLiteral s _) =>
    if nm' = nm then
      let units := toCodeUnits s
      match decompressFromUTF16 (20 * units.length + 100) (some units) with
      | some (.strR l) => if l = [] then acc else some l
      | _ => acc
    else acc
  | .numericLiteral _ _ => acc
  | .stringLiteral _ _ => acc
  | .booleanLiteral _ => acc
  | .nullLiteral => acc
  | .identifier _ => acc
  | .unaryExpression _ a => gfbN nm acc a
  | .binaryExpression _ l r => gfbN nm (gfbN nm acc l) r
  | .logicalExpression _ l r => gfbN nm (gfbN nm acc l) r
  | .conditionalExpression t c a => gfbN nm (gfbN nm (gfbN nm acc t) c) a
  | .memberExpression o p _ => gfbN nm (gfbN nm acc o) p
  | .callExpression c args => gfbL nm (gfbN nm acc c) args
  | .sequenceExpression es => gfbL nm acc es
  | .assignmentExpression l r => gfbN nm (gfbN nm acc l) r
  | .arrayExpression es => gfbL nm acc es
  | .functionExpression ps b => gfbL nm (gfbL nm acc ps) b
  | .functionDeclaration id ps b => gfbL nm (gfbL nm (gfbN nm acc id) ps) b
  | .variableDeclarator id init => gfbN nm (gfbN nm acc id) init
  | .variableDeclaration ds => gfbL nm acc ds
  | .expressionStatement e => gfbN nm acc e
  | .returnStatement a => gfbN nm acc a
  | .blockStatement b => gfbL nm acc b
  | .ifStatement t c a => gfbN nm (gfbN nm (gfbN nm acc t) c) a
  | .switchCase t cs => gfbL nm (gfbN nm acc t) cs
  | .switchStatement d cs => gfbL nm (gfbN nm acc d) cs
  | .emptyStatement => acc
  | .hole => acc

def gfbL (nm : String) (acc : Option (List ℕ)) : NodeList → Option (List ℕ)
  | .nil => acc
  | .cons h t => gfbL nm (gfbN nm acc h) t
end

/-! ## The pipeline driver `deobfuscate` (source lines 866–1045) -/

/-- `CONFIG.maxIterations` (source lines 149–152). -/
def maxIterationsCfg : ℕ := 10

/-- The Phase-0 discovery state: constant arrays, decoder name,
decompressed string table. -/
structure Phase0 where
  arrays : Arrays
  decoderFuncName : Option String
  decodedStrings : Option (List (List ℕ))
  deriving DecidableEq, Repr

/-- Phase 0 (source lines 874–935): extract constant arrays, run
`extractLZStringDecoder`, fall back to `findDecoderFuncName` and to the
generic regex branch. -/
def phase0 (code : List Char) (prog : NodeList) : Phase0 :=
  let arrays := extractConstantArrays prog
  match extractLZStringDecoder code prog with
  | some r =>
    let dn :=
      match r.decoderFuncName with
      | some n => some n
      | none => findDecoderFuncName code
    ⟨arrays, dn, some r.strings⟩
  | none =>
    match regexCScan code with
    | some varName =>
      (match gfbL varName none prog with
       | some units =>
         ⟨arrays, findDecoderFuncName code, some (splitUnits units)⟩
       | none => ⟨arrays, none, none⟩)
    | none => ⟨arrays, none, none⟩

/-- The shape of every phase loop: `while (changed && iterations <
cap) { iterations++; … }`, returning the tree (or the thrown exception)
and the number of iterations executed. -/
def iterLoop (pass : NodeList → Except Unit (NodeList × ℕ)) :
    ℕ → NodeList → (Except Unit NodeList) × ℕ
  | 0, p => (.ok p, 0)
  | fuel + 1, p =>
    match pass p with
    | .error e => (.error e, 1)
    | .ok (p', c) =>
      if 0 < c then
        let (r, n) := iterLoop pass fuel p'
        (r, n + 1)
      else (.ok p', 1)

/-- One Phase-1 iteration (source lines 942–955): P1 then P3; the loop
continues while either changed the tree. -/
def phase1Pass (arrays : Arrays) (p : NodeList) : Except Unit (NodeList × ℕ) := do
  let (p1, c1) ← inlineConstantArrayAccess arrays p
  let (p2, c2) := foldConstantsAndMergeStrings p1
  .ok (p2, c1 + c2)

/-- One Phase-2 iteration (source lines 964–977): P2 then P1. -/
def phase2Pass (arrays : Arrays) (name : String) (strings : List (List ℕ))
    (p : NodeList) : Except Unit (NodeList × ℕ) := do
  let (p1, c1) := inlineStringDecoder name strings p
  let (p2, c2) ← inlineConstantArrayAccess arrays p1
  .ok (p2, c1 + c2)

/-- One Phase-3 iteration (source lines 988–993). -/
def phase3Pass (p : NodeList) : Except Unit (NodeList × ℕ) :=
  .ok (foldConstantsAndMergeStrings p)

/-- One Phase-4 iteration (source lines 1003–1008). -/
def phase4Pass (rs : List Resolver) (p : NodeList) :
    Except Unit (NodeList × ℕ) :=
  .ok (inlineGlobalResolver rs p)

/-- `deobfuscate` (source lines 866–1045) with the per-phase outer
iteration counts exposed.  Parsing and printing are the external C2
adapter (spec §4.2): the program is received as a tree, and the raw
source string is received alongside it for the textual fallbacks.
Global resolvers are extracted at the start of Phase 4 from the current
tree (source line 998). -/
def deobfuscateCore (code : List Char) (prog : NodeList) :
    (Except Unit NodeList) × (ℕ × ℕ × ℕ × ℕ) :=
  let ph0 := phase0 code prog
  let s1 := iterLoop (phase1Pass ph0.arrays) maxIterationsCfg prog
  match s1.1 with
  | .error e => (.error e, (s1.2, 0, 0, 0))
  | .ok p1 =>
    let s2 :=
      match ph0.decoderFuncName, ph0.decodedStrings with
      | some nm, some strs =>
        iterLoop (phase2Pass ph0.arrays nm strs) maxIterationsCfg p1
      | _, _ => (.ok p1, 0)
    match s2.1 with
    | .error e => (.error e, (s1.2, s2.2, 0, 0))
    | .ok p2 =>
      let s3 := iterLoop phase3Pass maxIterationsCfg p2
      match s3.1 with
      | .error e => (.error e, (s1.2, s2.2, s3.2, 0))
      | .ok p3 =>
        let rs := extractGlobalResolver p3
        let s4 :=
          if rs ≠ [] then iterLoop (phase4Pass rs) 3 p3 else (.ok p3, 0)
        match s4.1 with
        | .error e => (.error e, (s1.2, s2.2, s3.2, s4.2))
        | .ok p4 =>
          let p5 := cleanupTransforms p4
          let (p6, _) := foldConstantsAndMergeStrings p5
          (.ok p6, (s1.2, s2.2, s3.2, s4.2))

/-- The core entry point: the rewritten tree, or the exception a pass
raised. -/
def deobfuscate (code : List Char) (prog : NodeList) : Except Unit NodeList :=
  (deobfuscateCore code prog).1

/-! ## Definitions supporting the claim statements -/

mutual
/-- All identifier names occurring in a tree (every `identifier` node,
including member properties), for the P4 allow-list invariant. -/
def identsN : Node → List String
  | .numericLiteral _ _ => []
  | .stringLiteral _ _ => []
  | .booleanLiteral _ => []
  | .nullLiteral => []
  | .identifier nm => [nm]
  | .unaryExpression _ a => identsN a
  | .binaryExpression _ l r => identsN l ++ identsN r
  | .logicalExpression _ l r => identsN l ++ identsN r
  | .conditionalExpression t c a => identsN t ++ identsN c ++ identsN a
  | .memberExpression o p _ => identsN o ++ identsN p
  | .callExpression c args => identsN c ++ identsL args
  | .sequenceExpression es => identsL es
  | .assignmentExpression l r => identsN l ++ identsN r
  | .arrayExpression es => identsL es
  | .functionExpression ps b => identsL ps ++ identsL b
  | .functionDeclaration id ps b => identsN id ++ identsL ps ++ identsL b
  | .variableDeclarator id init => identsN id ++ identsN init
  | .variableDeclaration ds => identsL ds
  | .expressionStatement e => identsN e
  | .returnStatement a => identsN a
  | .blockStatement b => identsL b
  | .ifStatement t c a => identsN t ++ identsN c ++ identsN a
  | .switchCase t cs => identsN t ++ identsL cs
  | .switchStatement d cs => identsN d ++ identsL cs
  | .emptyStatement => []
  | .hole => []

def identsL : NodeList → List String
  | .nil => []
  | .cons h t => identsN h ++ identsL t
end

/-- The `+` table of `evaluateNode` on two evaluated operands
(source lines 541–547): String-prefer-String for String/Number pairs,
Number addition, sentinel otherwise. -/
def jsAdd : JSVal → JSVal → Option JSVal
  | .str a, .str b => some (.str (a ++ b))
  | .str a, .num b => some (.str (a ++ jsNumToString b))
  | .num a, .str b => some (.str (jsNumToString a ++ b))
  | .num a, .num b => some (.num (a + b))
  | _, _ => none

/-- "Every element is evaluable by the C3 literal evaluator": the reading
claim C5 gives of array elements. -/
def allC3Evaluable : NodeList → Bool
  | .nil => true
  | .cons h t => (evaluateNode h).isSome && allC3Evaluable t

/-- The ≤1000-character window following the LAST occurrence of
`decompressFromUTF16`; `findDecoderFuncName`'s result is a function of
this window alone. -/
def fdnWindow (code : List Char) : Option (List Char) :=
  (lastIndexOf code "decompressFromUTF16".toList).map
    (fun i => (code.drop i).take 1000)

/-- The pipeline as claim C4 describes it: identical to
`deobfuscateCore`, except that the global resolvers are extracted in
Phase 0 from the freshly parsed tree instead of at the start of Phase 4
from the partially rewritten tree.  Defined only to be compared against
`deobfuscate`. -/
def deobfuscatePhase0Resolvers (code : List Char) (prog : NodeList) :
    Except Unit NodeList :=
  let ph0 := phase0 code prog
  let rsSpec := extractGlobalResolver prog
  let s1 := iterLoop (phase1Pass ph0.arrays) maxIterationsCfg prog
  match s1.1 with
  | .error e => .error e
  | .ok p1 =>
    let s2 :=
      match ph0.decoderFuncName, ph0.decodedStrings with
      | some nm, some strs =>
        iterLoop (phase2Pass ph0.arrays nm strs) maxIterationsCfg p1
      | _, _ => (.ok p1, 0)
    match s2.1 with
    | .error e => .error e
    | .ok p2 =>
      let s3 := iterLoop phase3Pass maxIterationsCfg p2
      match s3.1 with
      | .error e => .error e
      | .ok p3 =>
        let s4 :=
          if rsSpec ≠ [] then iterLoop (phase4Pass rsSpec) 3 p3
          else (.ok p3, 0)
        match s4.1 with
        | .error e => .error e
        | .ok p4 =>
          let p5 := cleanupTransforms p4
          let (p6, _) := foldConstantsAndMergeStrings p5
          .ok p6

/-- List-literal convenience for the example programs. -/
def nl (l : List Node) : NodeList := l.foldr .cons .nil

/-! ## Concrete example programs used by the claim theorems -/

/-- `var A = [0,0,0,0,0,0,0,0,0,0]; x = A[0.5];` — the array is
discovered (10 evaluable elements), and the access index evaluates to the
non-integral in-range number 0.5. -/
def exProgHalfIndex : NodeList := nl [
  .variableDeclaration (nl [.variableDeclarator (.identifier "A")
    (.arrayExpression (nl (List.replicate 10 (.numericLiteral 0 none))))]),
  .expressionStatement (.assignmentExpression (.identifier "x")
    (.memberExpression (.identifier "A")
      (.numericLiteral ((1 : ℚ)/2) none) true))]

/-- `a[!1 ? "y" : "x"];` — Phase 5 folds the conditional to `"x"` only
after the enclosing member expression was already visited, so the first
run leaves `a["x"]` and a second run rewrites it to `a.x`. -/
def exProgCleanupOrder : NodeList := nl [
  .expressionStatement (.memberExpression (.identifier "a")
    (.conditionalExpression (.unaryExpression "!" (.numericLiteral 1 none))
      (.stringLiteral "y" none) (.stringLiteral "x" none)) true)]

/-- The first-run output of `deobfuscate` on `exProgCleanupOrder`. -/
def outCleanupOrder1 : NodeList := nl [
  .expressionStatement (.memberExpression (.identifier "a")
    (.stringLiteral "x" none) true)]

/-- The second-run output of `deobfuscate` on `exProgCleanupOrder`. -/
def outCleanupOrder2 : NodeList := nl [
  .expressionStatement (.memberExpression (.identifier "a")
    (.identifier "x") false)]

/-- A resolver whose case labels hide behind constant-array accesses:
`var A = ["D","C","E","F","G","H","I","J","K","L"];
function R(k){ switch(k){ case A[0]: return g["Date"]; … } } z = R("D");`
On the fresh tree the switch has no string-literal labels, so Phase-0
extraction finds no resolver; after Phase 1 it does. -/
def exCaseLabel (i : ℚ) (g : String) : Node :=
  .switchCase (.memberExpression (.identifier "A") (.numericLiteral i none) true)
    (nl [.returnStatement (.memberExpression (.identifier "g")
      (.stringLiteral g none) true)])

def exProgLateResolver : NodeList := nl [
  .variableDeclaration (nl [.variableDeclarator (.identifier "A")
    (.arrayExpression (nl (["D", "C", "E", "F", "G", "H", "I", "J", "K", "L"].map
      (fun k => .stringLiteral k none))))]),
  .functionDeclaration (.identifier "R") (nl [.identifier "k"])
    (nl [.switchStatement (.identifier "k")
      (nl [exCaseLabel 0 "Date", exCaseLabel 1 "console", exCaseLabel 2 "Math",
           exCaseLabel 3 "JSON", exCaseLabel 4 "Object"])]),
  .expressionStatement (.assignmentExpression (.identifier "z")
    (.callExpression (.identifier "R") (nl [.stringLiteral "D" none])))]

/-- `var B = [1+2, …, 1+2];` (10 elements): every element is evaluable by
the C3 evaluator `evaluateNode`, but not by `nodeToValue`. -/
def exElemsPlus : NodeList :=
  nl (List.replicate 10
    (.binaryExpression "+" (.numericLiteral 1 none) (.numericLiteral 2 none)))

def exProgPlusArray : NodeList := nl [
  .variableDeclaration (nl [.variableDeclarator (.identifier "B")
    (.arrayExpression exElemsPlus)])]

/-- Raw source with two occurrences of `decompressFromUTF16`: a decoder
pattern `aaa = …` within 500 characters of the FIRST occurrence, and a
different pattern `ccc = …` after the LAST occurrence. -/
def exCodeTwoOcc : List Char :=
  ("AA decompressFromUTF16 QQ aaa = function(x)\x7b return b[x] \x7d "
    ++ String.mk (List.replicate 60 'z')
    ++ " decompressFromUTF16 WW ccc = function(y)\x7b return d[y]; \x7d").toList

/-- The IIFE whose call `obj.decompressFromUTF16(v)` succeeds (the blob
`"ၨ"` decompresses to `"A"`) but whose body contains no decoder
assignment, so the AST strategy fails and the textual fallback runs. -/
def exBodyIife : NodeList := nl [
  .variableDeclaration (nl [.variableDeclarator (.identifier "v")
    (.stringLiteral "ၨ" none)]),
  .expressionStatement (.callExpression
    (.memberExpression (.identifier "obj")
      (.identifier "decompressFromUTF16") false)
    (nl [.identifier "v"]))]

def exProgIife : NodeList := nl [
  .expressionStatement (.callExpression (.functionExpression .nil exBodyIife) .nil)]

/-- Two sources whose ≤1000-character windows after the last occurrence
of `decompressFromUTF16` coincide. -/
def exCodeTail : List Char :=
  "decompressFromUTF16 ccc = function(y)\x7b return d[y]; \x7d".toList

def exCodeTailPadded : List Char := "junk ".toList ++ exCodeTail

/-! ## Further definitions supporting the claim theorems -/

/-- "Every identifier of `out` is an identifier of `inp` or a member of
the allow-list" — the P4 invariant of claim C8. -/
def IdentsOK (out inp : List String) : Prop :=
  ∀ x : String, x ∈ out → x ∈ inp ∨ KNOWN_GLOBALS.contains x = true

/-- A trace of one `deobfuscate` run: the Phase-0 discovery state, the
tree entering Phase 4 (when reached), the resolvers Phase 4 used, and the
final result.  Mirrors `deobfuscateCore` step for step. -/
structure RunTrace where
  ph0 : Phase0
  afterPhase3 : Option NodeList
  resolvers : List Resolver
  result : Except Unit NodeList
  deriving DecidableEq, Repr

def deobfuscateTrace (code : List Char) (prog : NodeList) : RunTrace :=
  let ph0 := phase0 code prog
  let s1 := iterLoop (phase1Pass ph0.arrays) maxIterationsCfg prog
  match s1.1 with
  | .error e => ⟨ph0, none, [], .error e⟩
  | .ok p1 =>
    let s2 :=
      match ph0.decoderFuncName, ph0.decodedStrings with
      | some nm, some strs =>
        iterLoop (phase2Pass ph0.arrays nm strs) maxIterationsCfg p1
      | _, _ => (.ok p1, 0)
    match s2.1 with
    | .error e => ⟨ph0, none, [], .error e⟩
    | .ok p2 =>
      let s3 := iterLoop phase3Pass maxIterationsCfg p2
      match s3.1 with
      | .error e => ⟨ph0, none, [], .error e⟩
      | .ok p3 =>
        let rs := extractGlobalResolver p3
        let s4 :=
          if rs ≠ [] then iterLoop (phase4Pass rs) 3 p3 else (.ok p3, 0)
        match s4.1 with
        | .error e => ⟨ph0, some p3, rs, .error e⟩
        | .ok p4 =>
          let p5 := cleanupTransforms p4
          let (p6, _) := foldConstantsAndMergeStrings p5
          ⟨ph0, some p3, rs, .ok p6⟩

/-- A one-resolver, one-call program for the C8 witness. -/
def exResolverSmall : Resolver := ⟨"R", [("D", "Date")]⟩

def exProgCallR : NodeList := nl [
  .expressionStatement (.callExpression (.identifier "R")
    (nl [.stringLiteral "D" none]))]

/-- A case label of `exProgLateResolver` as it stands after Phase 1. -/
def exCaseLit (k g : String) : Node :=
  .switchCase (.stringLiteral k none)
    (nl [.returnStatement (.memberExpression (.identifier "g")
      (.stringLiteral g none) true)])

/-- `exProgLateResolver` as it enters Phase 4 (Phases 1–3 have inlined
the case labels). -/
def exProgLateResolverP3 : NodeList := nl [
  .variableDeclaration (nl [.variableDeclarator (.identifier "A")
    (.arrayExpression (nl (["D", "C", "E", "F", "G", "H", "I", "J", "K", "L"].map
      (fun k => .stringLiteral k none))))]),
  .functionDeclaration (.identifier "R") (nl [.identifier "k"])
    (nl [.switchStatement (.identifier "k")
      (nl [exCaseLit "D" "Date", exCaseLit "C" "console", exCaseLit "E" "Math",
           exCaseLit "F" "JSON", exCaseLit "G" "Object"])]),
  .expressionStatement (.assignmentExpression (.identifier "z")
    (.callExpression (.identifier "R") (nl [.stringLiteral "D" none])))]

/-! ## Claim theorems -/

/-- C1: the claim says every inliner pass is non-failing, and in
particular that `inlineConstantArrayAccess` leaves the node unchanged
when the computed index of a member access on a discovered constant array
evaluates to a non-integer number.  The code disagrees: on
`var A = [0,…,0]; x = A[0.5];` the array is discovered, the index
evaluates to the in-range non-integer `0.5`, the range guard passes, and
`array[0.5]` is `undefined`, so reading `item.isVoid` throws a TypeError
that propagates out of the pass and out of `deobfuscate`. -/
theorem c1_pass_throws_on_fractional_index :
    extractConstantArrays exProgHalfIndex =
      [("A", List.replicate 10 (.okVal (.num 0)))] ∧
    evaluateNode (.numericLiteral ((1 : ℚ)/2) none) = some (.num ((1 : ℚ)/2)) ∧
    inlineConstantArrayAccess (extractConstantArrays exProgHalfIndex)
      exProgHalfIndex = .error () ∧
    deobfuscate [] exProgHalfIndex = .error () := by
  refine ⟨by decide, by decide, by decide, by decide⟩

/-- C9: the claim says `deobfuscate` is idempotent.  On
`a[!1 ? "y" : "x"];` the first run's single cleanup walk folds the
conditional into the string `"x"` only after the enclosing member
expression was visited, leaving `a["x"]`; a second run simplifies it to
`a.x`, so the second run changes the output. -/
theorem c9_not_idempotent :
    deobfuscate [] exProgCleanupOrder = .ok outCleanupOrder1 ∧
    deobfuscate [] outCleanupOrder1 = .ok outCleanupOrder2 ∧
    outCleanupOrder1 ≠ outCleanupOrder2 := by
  refine ⟨by decide, by decide, by decide⟩

/-- C10: at the public interface, `decompressFromUTF16` maps a null
(absent) input to the empty string and the empty string to `null`; the
two degenerate inputs are distinguished and neither throws. -/
theorem c10_degenerate_inputs :
    (∀ fuel : ℕ, decompressFromUTF16 fuel none = some (.strR [])) ∧
    (∀ fuel : ℕ, decompressFromUTF16 fuel (some []) = some .nullR) ∧
    LZResult.strR [] ≠ LZResult.nullR := by
  refine ⟨fun _ => rfl, fun _ => rfl, by decide⟩

/-- C2 counterexample: the claim says malformed streams yield the empty
string.  The single-character input `[4212]` (preamble 0, 8-bit literal
65, then the 3-bit code 5 — neither a literal marker, nor the
terminator, nor a dictionary index, nor the `dictSize` edge case, since
`dictSize = 4`) makes `decompressFromUTF16` return JavaScript `null`,
not the empty string. -/
theorem c2_malformed_returns_null :
    decompressFromUTF16 40 (some [4212]) = some .nullR ∧
    LZResult.nullR ≠ LZResult.strR [] := by
  refine ⟨by decide, by decide⟩

/-- C5 counterexample: the claim says a ≥10-element array whose every
element is evaluable by the C3 literal evaluator is recorded.
`var B = [1+2, …×10];` has 10 elements, each C3-evaluable (to 3), yet
discovery records nothing, because `extractConstantArrays` uses the
stricter `nodeToValue` parser, which rejects binary expressions. -/
theorem c5_c3_evaluable_array_skipped :
    nlLength exElemsPlus = 10 ∧
    allC3Evaluable exElemsPlus = true ∧
    evaluateNode (.binaryExpression "+" (.numericLiteral 1 none)
      (.numericLiteral 2 none)) = some (.num 3) ∧
    extractConstantArrays exProgPlusArray = [] := by
  refine ⟨by decide, by decide, by decide, by decide⟩

/-- C6 counterexample: the claim says `+` concatenates whenever both
operands evaluate and either is a String.  `"a" + true` has both
operands evaluable (a String and a Boolean), yet the evaluator returns
the "not evaluable" sentinel rather than the string `"atrue"`. -/
theorem c6_string_plus_boolean_sentinel :
    evaluateNode (.stringLiteral "a" none) = some (.str "a") ∧
    evaluateNode (.booleanLiteral true) = some (.boolV true) ∧
    evaluateNode (.binaryExpression "+" (.stringLiteral "a" none)
      (.booleanLiteral true)) = none := by
  refine ⟨by decide, by decide, by decide⟩

/-- C4 counterexample: the claim says the whole discovery state,
including global resolvers, is produced in Phase 0 on the freshly parsed
tree.  On `exProgLateResolver` the fresh tree yields no resolver (the
case labels are still `A[i]`), yet the pipeline inlines `R("D")` to the
bare identifier `Date` — the resolver was extracted in Phase 4 from the
partially rewritten tree — and the pipeline's output differs from the
claimed Phase-0 ordering. -/
theorem c4_resolver_extracted_in_phase4 :
    extractGlobalResolver exProgLateResolver = [] ∧
    (match deobfuscate [] exProgLateResolver with
     | .ok p => nlGet p 2
     | .error _ => none) =
      some (.expressionStatement (.assignmentExpression (.identifier "z")
        (.identifier "Date"))) ∧
    deobfuscate [] exProgLateResolver ≠
      deobfuscatePhase0Resolvers [] exProgLateResolver := by
  refine ⟨by decide, by decide, by decide⟩

/-- C3 counterexample: the claim says the textual fallback never starts
from the first occurrence of `decompressFromUTF16`.  On `exProgIife`
(AST strategy fails: no decoder assignment in the IIFE) with the raw
source `exCodeTwoOcc`, `extractLZStringDecoder` picks `aaa` — the match
in the 500-character window after the FIRST occurrence — although the
last-occurrence search `findDecoderFuncName` would give `ccc`; the
pipeline's Phase-0 decoder name is therefore `aaa`. -/
theorem c3_fallback_uses_first_occurrence :
    scanDecoderAssign .nil exBodyIife exBodyIife = none ∧
    extractLZStringDecoder exCodeTwoOcc exProgIife =
      some ⟨some "aaa", [[65]]⟩ ∧
    (phase0 exCodeTwoOcc exProgIife).decoderFuncName = some "aaa" ∧
    findDecoderFuncName exCodeTwoOcc = some "ccc" ∧
    firstIndexOf exCodeTwoOcc "decompressFromUTF16".toList ≠
      lastIndexOf exCodeTwoOcc "decompressFromUTF16".toList := by
  refine ⟨by decide, by decide, by decide, by decide, by decide⟩

/-! ## Helper lemmas -/

theorem IdentsOK.same {a : List String} : IdentsOK a a := fun _ hx => Or.inl hx

theorem IdentsOK.append {a' a b' b : List String}
    (ha : IdentsOK a' a) (hb : IdentsOK b' b) :
    IdentsOK (a' ++ b') (a ++ b) := by
  intro x hx
  rcases List.mem_append.1 hx with h | h
  · rcases ha x h with h' | h'
    · exact Or.inl (List.mem_append.2 (Or.inl h'))
    · exact Or.inr h'
  · rcases hb x h with h' | h'
    · exact Or.inl (List.mem_append.2 (Or.inr h'))
    · exact Or.inr h'

/-- The P4 visitor only ever substitutes allow-listed identifiers. -/
theorem resolverPre_allowed (f : String) (m : List (String × String)) :
    ∀ (n r : Node), resolverPre f m n = some r →
      ∃ g, r = Node.identifier g ∧ KNOWN_GLOBALS.contains g = true := by
  intro n r h
  cases n <;> try (simp [resolverPre] at h)
  case callExpression c args =>
    cases c <;> try (simp [resolverPre] at h)
    case identifier nm =>
      obtain ⟨-, h⟩ := h
      rcases hh : nlHead args with _ | a <;> rw [hh] at h
      · simp at h
      · cases a <;> simp at h
        case stringLiteral key raw =>
          rcases hg : aLookup m key with _ | g
          · rw [hg] at h
            simp at h
          · rw [hg] at h
            dsimp only at h
            split_ifs at h with hc
            exact ⟨g, (Option.some.inj h).symm, by simpa using hc⟩

mutual
/-- Identifier bookkeeping for the `CallExpression` engine: the rewritten
tree's identifiers are the input's plus allow-listed ones, whenever the
visitor only substitutes allow-listed identifiers. -/
theorem callRwN_identsOK (pre : Node → Option Node)
    (hpre : ∀ n r, pre n = some r →
      ∃ g, r = Node.identifier g ∧ KNOWN_GLOBALS.contains g = true) :
    (n : Node) → IdentsOK (identsN (callRwN pre n).1) (identsN n)
  | .numericLiteral _ _ => IdentsOK.same
  | .stringLiteral _ _ => IdentsOK.same
  | .booleanLiteral _ => IdentsOK.same
  | .nullLiteral => IdentsOK.same
  | .identifier _ => IdentsOK.same
  | .unaryExpression op a => by
    have ha := callRwN_identsOK pre hpre a
    rcases h1 : callRwN pre a with ⟨a', n1⟩
    rw [h1] at ha
    simp only [callRwN, h1, identsN]
    exact ha
  | .binaryExpression op l r => by
    have hl := callRwN_identsOK pre hpre l
    have hr := callRwN_identsOK pre hpre r
    rcases h1 : callRwN pre l with ⟨l', n1⟩
    rcases h2 : callRwN pre r with ⟨r', n2⟩
    rw [h1] at hl; rw [h2] at hr
    simp only [callRwN, h1, h2, identsN]
    exact hl.append hr
  | .logicalExpression op l r => by
    have hl := callRwN_identsOK pre hpre l
    have hr := callRwN_identsOK pre hpre r
    rcases h1 : callRwN pre l with ⟨l', n1⟩
    rcases h2 : callRwN pre r with ⟨r', n2⟩
    rw [h1] at hl; rw [h2] at hr
    simp only [callRwN, h1, h2, identsN]
    exact hl.append hr
  | .conditionalExpression t c a => by
    have ht := callRwN_identsOK pre hpre t
    have hc := callRwN_identsOK pre hpre c
    have ha := callRwN_identsOK pre hpre a
    rcases h1 : callRwN pre t with ⟨t', n1⟩
    rcases h2 : callRwN pre c with ⟨c', n2⟩
    rcases h3 : callRwN pre a with ⟨a', n3⟩
    rw [h1] at ht; rw [h2] at hc; rw [h3] at ha
    simp only [callRwN, h1, h2, h3, identsN]
    exact (ht.append hc).append ha
  | .memberExpression o p comp => by
    have ho := callRwN_identsOK pre hpre o
    have hp := callRwN_identsOK pre hpre p
    rcases h1 : callRwN pre o with ⟨o', n1⟩
    rcases h2 : callRwN pre p with ⟨p', n2⟩
    rw [h1] at ho; rw [h2] at hp
    simp only [callRwN, h1, h2, identsN]
    exact ho.append hp
  | .callExpression c args => by
    rcases hp : pre (.callExpression c args) with _ | r
    · have hc := callRwN_identsOK pre hpre c
      have ha := callRwL_identsOK pre hpre args
      rcases h1 : callRwN pre c with ⟨c', n1⟩
      rcases h2 : callRwL pre args with ⟨args', n2⟩
      rw [h1] at hc; rw [h2] at ha
      simp only [callRwN, hp, h1, h2, identsN]
      exact hc.append ha
    · obtain ⟨g, rfl, hg⟩ := hpre _ r hp
      simp only [callRwN, hp, identsN]
      intro x hx
      simp only [List.mem_singleton] at hx
      subst hx
      exact Or.inr hg
  | .sequenceExpression es => by
    have he := callRwL_identsOK pre hpre es
    rcases h1 : callRwL pre es with ⟨es', n1⟩
    rw [h1] at he
    simp only [callRwN, h1, identsN]
    exact he
  | .assignmentExpression l r => by
    have hl := callRwN_identsOK pre hpre l
    have hr := callRwN_identsOK pre hpre r
    rcases h1 : callRwN pre l with ⟨l', n1⟩
    rcases h2 : callRwN pre r with ⟨r', n2⟩
    rw [h1] at hl; rw [h2] at hr
    simp only [callRwN, h1, h2, identsN]
    exact hl.append hr
  | .arrayExpression es => by
    have he := callRwL_identsOK pre hpre es
    rcases h1 : callRwL pre es with ⟨es', n1⟩
    rw [h1] at he
    simp only [callRwN, h1, identsN]
    exact he
  | .functionExpression ps b => by
    have hps := callRwL_identsOK pre hpre ps
    have hb := callRwL_identsOK pre hpre b
    rcases h1 : callRwL pre ps with ⟨ps', n1⟩
    rcases h2 : callRwL pre b with ⟨b', n2⟩
    rw [h1] at hps; rw [h2] at hb
    simp only [callRwN, h1, h2, identsN]
    exact hps.append hb
  | .functionDeclaration id ps b => by
    have hid := callRwN_identsOK pre hpre id
    have hps := callRwL_identsOK pre hpre ps
    have hb := callRwL_identsOK pre hpre b
    rcases h1 : callRwN pre id with ⟨id', n1⟩
    rcases h2 : callRwL pre ps with ⟨ps', n2⟩
    rcases h3 : callRwL pre b with ⟨b', n3⟩
    rw [h1] at hid; rw [h2] at hps; rw [h3] at hb
    simp only [callRwN, h1, h2, h3, identsN]
    exact (hid.append hps).append hb
  | .variableDeclarator id init => by
    have hid := callRwN_identsOK pre hpre id
    have hin := callRwN_identsOK pre hpre init
    rcases h1 : callRwN pre id with ⟨id', n1⟩
    rcases h2 : callRwN pre init with ⟨init', n2⟩
    rw [h1] at hid; rw [h2] at hin
    simp only [callRwN, h1, h2, identsN]
    exact hid.append hin
  | .variableDeclaration ds => by
    have hd := callRwL_identsOK pre hpre ds
    rcases h1 : callRwL pre ds with ⟨ds', n1⟩
    rw [h1] at hd
    simp only [callRwN, h1, identsN]
    exact hd
  | .expressionStatement e => by
    have he := callRwN_identsOK pre hpre e
    rcases h1 : callRwN pre e with ⟨e', n1⟩
    rw [h1] at he
    simp only [callRwN, h1, identsN]
    exact he
  | .returnStatement a => by
    have ha := callRwN_identsOK pre hpre a
    rcases h1 : callRwN pre a with ⟨a', n1⟩
    rw [h1] at ha
    simp only [callRwN, h1, identsN]
    exact ha
  | .blockStatement b => by
    have hb := callRwL_identsOK pre hpre b
    rcases h1 : callRwL pre b with ⟨b', n1⟩
    rw [h1] at hb
    simp only [callRwN, h1, identsN]
    exact hb
  | .ifStatement t c a => by
    have ht := callRwN_identsOK pre hpre t
    have hc := callRwN_identsOK pre hpre c
    have ha := callRwN_identsOK pre hpre a
    rcases h1 : callRwN pre t with ⟨t', n1⟩
    rcases h2 : callRwN pre c with ⟨c', n2⟩
    rcases h3 : callRwN pre a with ⟨a', n3⟩
    rw [h1] at ht; rw [h2] at hc; rw [h3] at ha
    simp only [callRwN, h1, h2, h3, identsN]
    exact (ht.append hc).append ha
  | .switchCase t cs => by
    have ht := callRwN_identsOK pre hpre t
    have hcs := callRwL_identsOK pre hpre cs
    rcases h1 : callRwN pre t with ⟨t', n1⟩
    rcases h2 : callRwL pre cs with ⟨cs', n2⟩
    rw [h1] at ht; rw [h2] at hcs
    simp only [callRwN, h1, h2, identsN]
    exact ht.append hcs
  | .switchStatement d cs => by
    have hd := callRwN_identsOK pre hpre d
    have hcs := callRwL_identsOK pre hpre cs
    rcases h1 : callRwN pre d with ⟨d', n1⟩
    rcases h2 : callRwL pre cs with ⟨cs', n2⟩
    rw [h1] at hd; rw [h2] at hcs
    simp only [callRwN, h1, h2, identsN]
    exact hd.append hcs
  | .emptyStatement => IdentsOK.same
  | .hole => IdentsOK.same

theorem callRwL_identsOK (pre : Node → Option Node)
    (hpre : ∀ n r, pre n = some r →
      ∃ g, r = Node.identifier g ∧ KNOWN_GLOBALS.contains g = true) :
    (l : NodeList) → IdentsOK (identsL (callRwL pre l).1) (identsL l)
  | .nil => IdentsOK.same
  | .cons hd tl => by
    have hh := callRwN_identsOK pre hpre hd
    have ht := callRwL_identsOK pre hpre tl
    rcases h1 : callRwN pre hd with ⟨hd', n1⟩
    rcases h2 : callRwL pre tl with ⟨tl', n2⟩
    rw [h1] at hh; rw [h2] at ht
    simp only [callRwL, h1, h2, identsL]
    exact hh.append ht
end

/-- C8: the P4 resolver-inlining pass never introduces a bare identifier
outside the allow-list — every identifier of the rewritten tree is an
identifier of the input tree or a member of `KNOWN_GLOBALS`. -/
theorem c8_allowlist (rs : List Resolver) (prog : NodeList) (x : String)
    (hx : x ∈ identsL (inlineGlobalResolver rs prog).1) :
    x ∈ identsL prog ∨ KNOWN_GLOBALS.contains x = true := by
  induction rs generalizing prog with
  | nil =>
    simp only [inlineGlobalResolver] at hx
    exact Or.inl hx
  | cons r rest ih =>
    revert hx
    simp only [inlineGlobalResolver]
    rcases h1 : callRwL (resolverPre r.funcName r.mapping) prog with ⟨p', c⟩
    rcases h2 : inlineGlobalResolver rest p' with ⟨p'', c'⟩
    simp only
    intro hx
    have step2 := ih p' (by rw [h2]; exact hx)
    rcases step2 with h | h
    · have base := callRwL_identsOK (resolverPre r.funcName r.mapping)
        (resolverPre_allowed r.funcName r.mapping) prog
      rw [h1] at base
      exact base x h
    · exact Or.inr h

theorem c8_allowlist_witness :
    "Date" ∈ identsL exProgCallR ∨ KNOWN_GLOBALS.contains "Date" = true :=
  c8_allowlist [exResolverSmall] exProgCallR "Date" (by decide)


/-- Every phase loop executes at most its fuel's number of iterations. -/
theorem iterLoop_count_le (pass : NodeList → Except Unit (NodeList × ℕ)) :
    ∀ (fuel : ℕ) (p : NodeList), (iterLoop pass fuel p).2 ≤ fuel
  | 0, _ => Nat.le_refl 0
  | fuel + 1, p => by
    rw [iterLoop]
    rcases hp : pass p with e | ⟨p', c⟩
    · simp
    · simp only
      split
      · rcases hr : iterLoop pass fuel p' with ⟨r, m⟩
        have hle := iterLoop_count_le pass fuel p'
        rw [hr] at hle
        simp only
        omega
      · simp

theorem counts_bound {a b c d : ℕ} (ha : a ≤ 10) (hb : b ≤ 10)
    (hc : c ≤ 10) (hd : d ≤ 3) :
    a ≤ 10 ∧ b ≤ 10 ∧ c ≤ 10 ∧ d ≤ 3 ∧ a + b + c + d + 1 ≤ 34 := by
  omega

/-- C7: every run of the pipeline performs at most 10 outer iterations in
Phase 1, 10 in Phase 2, 10 in Phase 3, 3 in Phase 4, and Phase 5 runs
once, for at most 10+10+10+3+1 = 34 outer iterations in total; the loops
are capped, so exhausting a cap is not an error and every run
terminates. -/
theorem c7_iteration_caps (code : List Char) (prog : NodeList) :
    (deobfuscateCore code prog).2.1 ≤ 10 ∧
    (deobfuscateCore code prog).2.2.1 ≤ 10 ∧
    (deobfuscateCore code prog).2.2.2.1 ≤ 10 ∧
    (deobfuscateCore code prog).2.2.2.2 ≤ 3 ∧
    (deobfuscateCore code prog).2.1 + (deobfuscateCore code prog).2.2.1 +
      (deobfuscateCore code prog).2.2.2.1 +
      (deobfuscateCore code prog).2.2.2.2 + 1 ≤ 34 := by
  simp only [deobfuscateCore]
  repeat' split
  all_goals
    exact counts_bound
      (by first | exact Nat.zero_le _ | exact iterLoop_count_le _ _ _)
      (by first | exact Nat.zero_le _ | exact iterLoop_count_le _ _ _)
      (by first | exact Nat.zero_le _ | exact iterLoop_count_le _ _ _)
      (by first | exact Nat.zero_le _ | exact iterLoop_count_le _ _ _)

/-- C6 amended: for evaluated operands, `+` follows the `jsAdd` table —
String/String, String/Number and Number/String concatenate, Number/Number
add, and every other evaluated pair (e.g. a Boolean or Null operand)
yields the "not evaluable" sentinel. -/
theorem c6_amended (l r : Node) (vl vr : JSVal)
    (hl : evaluateNode l = some vl) (hr : evaluateNode r = some vr) :
    evaluateNode (.binaryExpression "+" l r) = jsAdd vl vr := by
  simp only [evaluateNode, hl, hr]
  cases vl <;> cases vr <;> simp [jsAdd]

theorem c6_amended_witness :
    evaluateNode (.binaryExpression "+" (.stringLiteral "a" none)
      (.numericLiteral 2 none)) = jsAdd (.str "a") (.num 2) :=
  c6_amended _ _ _ _ (by decide) (by decide)

/-- C5 amended: discovery records a constant array exactly for a
declarator with an identifier id and an array-expression initializer of
at least 10 elements, every one accepted by the restricted literal parser
`nodeToValue` (not the full C3 evaluator); `extractConstantArrays`
applies this check at every declarator of the tree. -/
theorem c5_amended (d : Node) (n : String) (vs : List Parsed) :
    declArrayEntry d = some (n, vs) ↔
      ∃ elems : NodeList,
        d = .variableDeclarator (.identifier n) (.arrayExpression elems) ∧
        10 ≤ nlLength elems ∧ parseElems elems = some vs := by
  constructor
  · intro h
    cases d <;> try (simp [declArrayEntry] at h)
    case variableDeclarator id init =>
      cases id <;> try (simp [declArrayEntry] at h)
      case identifier nm =>
        cases init <;> try (simp [declArrayEntry] at h)
        case arrayExpression elems =>
          obtain ⟨hlen, h⟩ := h
          rcases hp : parseElems elems with _ | val
          · rw [hp] at h
            simp at h
          · rw [hp] at h
            dsimp only at h
            simp only [Option.some.injEq, Prod.mk.injEq] at h
            obtain ⟨rfl, rfl⟩ := h
            exact ⟨elems, rfl, hlen, hp⟩
  · rintro ⟨elems, rfl, hlen, hp⟩
    simp [declArrayEntry, hp]
    omega

theorem c5_amended_witness :
    declArrayEntry (.variableDeclarator (.identifier "A")
      (.arrayExpression (nl (List.replicate 10 (.numericLiteral 0 none))))) =
      some ("A", List.replicate 10 (.okVal (.num 0))) :=
  (c5_amended _ "A" _).2 ⟨_, rfl, by decide, by decide⟩

/-- C3 amended: `findDecoderFuncName` is a function of the
≤1000-character window following the LAST occurrence of
`decompressFromUTF16` alone — though an earlier textual fallback inside
`extractLZStringDecoder` (the one actually consulted first when the AST
strategy fails) scans 500 characters from the FIRST occurrence. -/
theorem c3_amended (c1 c2 : List Char) (h : fdnWindow c1 = fdnWindow c2) :
    findDecoderFuncName c1 = findDecoderFuncName c2 := by
  unfold findDecoderFuncName
  unfold fdnWindow at h
  cases h1 : lastIndexOf c1 "decompressFromUTF16".toList with
  | none =>
    cases h2 : lastIndexOf c2 "decompressFromUTF16".toList with
    | none => rfl
    | some j => rw [h1, h2] at h; simp at h
  | some i =>
    cases h2 : lastIndexOf c2 "decompressFromUTF16".toList with
    | none => rw [h1, h2] at h; simp at h
    | some j =>
      rw [h1, h2] at h
      simp only [Option.map_some', Option.some.injEq] at h
      dsimp only
      rw [h]

theorem c3_amended_witness :
    findDecoderFuncName exCodeTail = findDecoderFuncName exCodeTailPadded ∧
    findDecoderFuncName exCodeTail = some "ccc" :=
  ⟨c3_amended exCodeTail exCodeTailPadded (by decide), by decide⟩

/-- C4 amended: constant arrays and the string table are produced once in
Phase 0 from the fresh tree and only read afterwards, while the global
resolvers are extracted at the start of Phase 4 from the current
(partially rewritten) tree; the trace coincides with `deobfuscate`. -/
theorem c4_amended (code : List Char) (prog : NodeList) :
    (deobfuscateTrace code prog).ph0 = phase0 code prog ∧
    (∀ p3, (deobfuscateTrace code prog).afterPhase3 = some p3 →
      (deobfuscateTrace code prog).resolvers = extractGlobalResolver p3) ∧
    (deobfuscateTrace code prog).result = deobfuscate code prog := by
  simp only [deobfuscateTrace, deobfuscate, deobfuscateCore]
  repeat' split
  all_goals simp_all

theorem c4_amended_witness :
    (deobfuscateTrace [] exProgLateResolver).resolvers =
      extractGlobalResolver exProgLateResolverP3 :=
  (c4_amended [] exProgLateResolver).2.1 exProgLateResolverP3 (by decide)

/-- C2 amended, the three return paths of `_decompress`: a code that is
neither a literal marker (0/1), nor the terminator (2), nor a truthy
dictionary entry, nor the `dictSize` edge case returns JavaScript `null`
— not the empty string; truncation (`data.index > length`) returns the
empty string; end-of-data (code 2) in the bootstrap preamble returns the
empty string.  None of these paths throws. -/
theorem c2_amended :
    (∀ (input : List ℕ) (fuel : ℕ) (st : LZState),
      input.length < st.bs.index →
      lzLoop input (fuel + 1) st = some (.strR [])) ∧
    (∀ (input : List ℕ) (fuel : ℕ) (st : LZState) (k : ℕ) (bs1 : BitState),
      st.bs.index ≤ input.length →
      readBits input st.numBits st.bs = (k + 3, bs1) →
      entryTruthy (st.dictionary.get? (k + 3)) = false →
      k + 3 ≠ st.dictSize →
      lzLoop input (fuel + 1) st = some .nullR) ∧
    (∀ (input : List ℕ) (fuel : ℕ) (bs1 : BitState),
      readBits input 2 ⟨getNextValue input 0, 16384, 1⟩ = (2, bs1) →
      lzDecompress input fuel = some (.strR [])) := by
  refine ⟨?_, ?_, ?_⟩
  · intro input fuel st h
    rw [lzLoop, lzIter]
    rw [if_pos h]
  · intro input fuel st k bs1 hidx hread htruthy hsize
    rw [lzLoop, lzIter]
    rw [if_neg (by omega)]
    rw [hread]
    dsimp only
    rw [lzStepTail]
    have ht2 : entryTruthy st.dictionary[k + 3]? = false := by
      simpa using htruthy
    by_cases henl : st.enlargeIn = 0 <;> simp [henl, ht2, hsize]
  · intro input fuel bs1 hread
    rw [lzDecompress, hread]
    rfl

theorem c2_amended_witness :
    lzLoop [] 1 ⟨[.numE 0, .numE 1, .numE 2, .strE [65]], 4, 4, 3,
      some [65], [some [65]], ⟨none, 16384, 1⟩⟩ = some (.strR []) ∧
    lzLoop [4212] 1 ⟨[.numE 0, .numE 1, .numE 2, .strE [65]], 4, 4, 3,
      some [65], [some [65]], ⟨some 4180, 16, 1⟩⟩ = some .nullR ∧
    lzDecompress [8224] 0 = some (.strR []) := by
  refine ⟨c2_amended.1 [] 0 _ (by decide),
    c2_amended.2.1 [4212] 0 _ 2 ⟨some 4180, 2, 1⟩ (by decide) (by decide)
      (by decide) (by decide),
    c2_amended.2.2 [8224] 0 ⟨some 8192, 4096, 1⟩ (by decide)⟩

end DeobfV4
